import Mathlib

/-!
Shallow embedding of the DigitalSynthesizer modulation engine, envelope,
oscillator note gating, preset manager and LFO, translated from the C++
sources.  Float values are modelled as rationals; JUCE framework helpers
(`jlimit`, `jmap`, `juce::ADSR`) are modelled at their documented interface.
-/

namespace Synth

/-- `juce::jlimit(lower, upper, value)`: conditional clamp, translated exactly
(value below lower gives lower, above upper gives upper, otherwise value). -/
def jlimit (lo hi v : ℚ) : ℚ :=
  if v < lo then lo else if hi < v then hi else v

/-- `juce::jmap(value0To1, targetMin, targetMax)`: linear remap of a 0..1
value into a target range, no clamping. -/
def jmap01 (v lo hi : ℚ) : ℚ := lo + v * (hi - lo)

/-- `ModulationMode` from Knob.h (None, Manual, Midi, Envelope, LFO). -/
inductive ModulationMode
  | none
  | manual
  | midi
  | envelope
  | lfo
deriving DecidableEq, Repr

/-- `ModulationSourceType` from Knob.h. -/
inductive ModulationSourceType
  | envelope
  | lfo
deriving DecidableEq, Repr

/-- `ModulationSourceID` from Knob.h: a source type together with an index. -/
structure ModulationSourceID where
  ty : ModulationSourceType
  index : Int
deriving DecidableEq, Repr

/-- Which concrete `ModulatableParameter` implementation a target is:
a UI-bound `Knob` or a headless `ModulationTarget` proxy. -/
inductive TargetKind
  | knob
  | proxy
deriving DecidableEq, Repr

/-- State of one modulatable target.  For a `Knob` the fields mirror
`KnobModulationEngine` (mode, value, min, max, delta, dragging) plus the
underlying APVTS parameter (`param`, written via `setValueNotifyingHost`),
its default, and the `_MOD_MIN`/`_MOD_MAX` companion parameter values that
`Knob::setModulationMode` restores from.  For a `ModulationTarget` proxy the
fields mirror `currentMode`, `currentRange` and the base parameter; the
knob-engine-only fields are simply unused on that path. -/
structure TargetState where
  kind : TargetKind
  mode : ModulationMode
  engineValue : ℚ
  rmin : ℚ
  rmax : ℚ
  delta : ℚ
  dragging : Bool
  param : ℚ
  paramDefault : ℚ
  apvtsModMin : ℚ
  apvtsModMax : ℚ
deriving DecidableEq, Repr

namespace TargetState

/-- `KnobModulationEngine::setValue`: clamp the incoming value to [0,1]. -/
def engineSetValue (v : ℚ) (t : TargetState) : TargetState :=
  { t with engineValue := jlimit 0 1 v }

/-- `KnobModulationEngine::setMode`: store the mode; entering Envelope or LFO
mode resets the range to [0,1] with delta 1. -/
def engineSetMode (m : ModulationMode) (t : TargetState) : TargetState :=
  let t := { t with mode := m }
  if m = .envelope ∨ m = .lfo then
    { t with rmin := 0, rmax := 1, delta := 1 }
  else t

/-- `KnobModulationEngine::clear`. -/
def engineClear (t : TargetState) : TargetState :=
  { t with mode := .manual, engineValue := 0, rmin := 0, rmax := 1,
           delta := 1, dragging := false }

/-- `KnobModulationEngine::setRange`: min clamped to [0,1], then max clamped
to [min,1], delta recomputed. -/
def engineSetRange (mn mx : ℚ) (t : TargetState) : TargetState :=
  let newMin := jlimit 0 1 mn
  let newMax := jlimit newMin 1 mx
  { t with rmin := newMin, rmax := newMax, delta := newMax - newMin }

/-- `Knob::clearModulation`: delegates to the engine. -/
def knobClearModulation (t : TargetState) : TargetState :=
  engineClear t

/-- `Knob::setModulationMode`: sets the engine mode; in Envelope/LFO mode the
range is then restored from the `_MOD_MIN`/`_MOD_MAX` APVTS parameters
(slider mouse/text settings are GUI-only and not modelled). -/
def knobSetModulationMode (m : ModulationMode) (t : TargetState) : TargetState :=
  let t1 := engineSetMode m t
  if m = .envelope ∨ m = .lfo then
    engineSetRange t1.apvtsModMin t1.apvtsModMax t1
  else t1

/-- `Knob::setModulationValue`: store the value in the engine; in
Envelope/LFO mode remap through the engine range, clamp to [0,1] and write the
underlying parameter. -/
def knobSetModulationValue (v : ℚ) (t : TargetState) : TargetState :=
  let t1 := engineSetValue v t
  if t1.mode = .envelope ∨ t1.mode = .lfo then
    { t1 with param := jlimit 0 1 (t1.rmin + (t1.rmax - t1.rmin) * v) }
  else t1

/-- `ModulationTarget::setModulationValue`: remap through the current range
with `juce::jmap` (no clamp) and write the base parameter. -/
def proxySetModulationValue (v : ℚ) (t : TargetState) : TargetState :=
  { t with param := jmap01 v t.rmin t.rmax }

/-- `ModulationTarget::setModulationMode`. -/
def proxySetModulationMode (m : ModulationMode) (t : TargetState) : TargetState :=
  { t with mode := m }

/-- `ModulationTarget::clearModulation`. -/
def proxyClearModulation (t : TargetState) : TargetState :=
  { t with mode := .manual, rmin := 0, rmax := 1 }

/-- Virtual dispatch of `ModulatableParameter::setModulationValue`. -/
def setModValue (v : ℚ) (t : TargetState) : TargetState :=
  match t.kind with
  | .knob => knobSetModulationValue v t
  | .proxy => proxySetModulationValue v t

/-- Virtual dispatch of `ModulatableParameter::setModulationMode`. -/
def setModMode (m : ModulationMode) (t : TargetState) : TargetState :=
  match t.kind with
  | .knob => knobSetModulationMode m t
  | .proxy => proxySetModulationMode m t

/-- Virtual dispatch of `ModulatableParameter::clearModulation`. -/
def clearMod (t : TargetState) : TargetState :=
  match t.kind with
  | .knob => knobClearModulation t
  | .proxy => proxyClearModulation t

end TargetState

/-- The `ModulationRouter` state together with the states of all targets.
Targets are identified by natural numbers (C++ object pointers); the three
`unordered_map`s are modelled as total functions where an absent key is the
default (`[]` / `Option.none`) — `sourceToTargets` never holds a key with an
empty list in the C++ (empty entries are erased), so the two representations
coincide.  Null target pointers cannot be represented, so the defensive null
pruning in `pushModulationValue` has no counterpart here. -/
structure RouterWorld where
  s2t : ModulationSourceID → List Nat
  t2s : Nat → Option ModulationSourceID
  lastMod : ModulationSourceID → Option ℚ
  targets : Nat → TargetState

namespace RouterWorld

/-- Apply a member-function call to one target object. -/
def applyToTarget (t : Nat) (f : TargetState → TargetState) (w : RouterWorld) :
    RouterWorld :=
  { w with targets := Function.update w.targets t (f (w.targets t)) }

/-- `ModulationRouter::disconnect`: if the target has a source, remove it from
that source's list, clear the reverse edge, then notify the target
(`setModulationMode(Manual)` followed by `clearModulation`). -/
def disconnect (t : Nat) (w : RouterWorld) : RouterWorld :=
  match w.t2s t with
  | Option.none => w
  | some src =>
    let w1 : RouterWorld :=
      { w with
        s2t := Function.update w.s2t src ((w.s2t src).filter (fun x => x ≠ t)),
        t2s := Function.update w.t2s t Option.none }
    let w2 := applyToTarget t (TargetState.setModMode .manual) w1
    applyToTarget t TargetState.clearMod w2

/-- `ModulationRouter::connect`: disconnect any previous edge, store the edge
in both maps, then set the target's mode from the source type. -/
def connect (src : ModulationSourceID) (t : Nat) (w : RouterWorld) : RouterWorld :=
  let w1 := disconnect t w
  let w2 : RouterWorld :=
    { w1 with
      s2t := Function.update w1.s2t src (w1.s2t src ++ [t]),
      t2s := Function.update w1.t2s t (some src) }
  match src.ty with
  | .envelope => applyToTarget t (TargetState.setModMode .envelope) w2
  | .lfo => applyToTarget t (TargetState.setModMode .lfo) w2

/-- The iteration over a source's target list shared by
`pushModulationValue` and `retriggerPush`: call `setModulationValue` on each
listed target in order. -/
def applyModValueList (v : ℚ) : List Nat → RouterWorld → RouterWorld
  | [], w => w
  | t :: ts, w => applyModValueList v ts (applyToTarget t (TargetState.setModValue v) w)

/-- `ModulationRouter::pushModulationValue`: record the value as the source's
last value, then forward it to every connected target. -/
def pushModulationValue (src : ModulationSourceID) (v : ℚ) (w : RouterWorld) :
    RouterWorld :=
  let w1 : RouterWorld := { w with lastMod := Function.update w.lastMod src (some v) }
  applyModValueList v (w1.s2t src) w1

/-- Per-target body of the `disconnectAllTargetsUsing` loop: clear modulation,
reset the mode to Manual, reset the underlying parameter to its default when
the target is a `Knob` (the `dynamic_cast<Knob*>` branch), and erase the
reverse edge. -/
def discAllLoop : List Nat → RouterWorld → RouterWorld
  | [], w => w
  | t :: ts, w =>
    let w1 := applyToTarget t TargetState.clearMod w
    let w2 := applyToTarget t (TargetState.setModMode .manual) w1
    let w3 :=
      if (w2.targets t).kind = .knob then
        applyToTarget t (fun st => { st with param := st.paramDefault }) w2
      else w2
    discAllLoop ts { w3 with t2s := Function.update w3.t2s t Option.none }

/-- `ModulationRouter::disconnectAllTargetsUsing`. -/
def disconnectAllTargetsUsing (src : ModulationSourceID) (w : RouterWorld) :
    RouterWorld :=
  let w1 := discAllLoop (w.s2t src) w
  { w1 with s2t := Function.update w1.s2t src [] }

/-- `ModulationRouter::disconnectAll`: every target that currently has a
source is cleared and reset to Manual mode, then all three maps are cleared. -/
def disconnectAll (w : RouterWorld) : RouterWorld :=
  { s2t := fun _ => [],
    t2s := fun _ => Option.none,
    lastMod := fun _ => Option.none,
    targets := fun t =>
      match w.t2s t with
      | some _ =>
        TargetState.setModMode .manual (TargetState.clearMod (w.targets t))
      | Option.none => w.targets t }

/-- `ModulationRouter::retriggerPush`: if the source has a last value, re-send
it to all of the source's targets. -/
def retriggerPush (src : ModulationSourceID) (w : RouterWorld) : RouterWorld :=
  match w.lastMod src with
  | Option.none => w
  | some v => applyModValueList v (w.s2t src) w

/-- `ModulationRouter::connectIfAlive`: connect and replay the last value
only when the source has pushed a value before. -/
def connectIfAlive (src : ModulationSourceID) (t : Nat) (w : RouterWorld) :
    RouterWorld :=
  match w.lastMod src with
  | some _ => retriggerPush src (connect src t w)
  | Option.none => w

/-- `ModulationRouter::unregisterTarget` delegates to `disconnect`;
`registerTarget` is a no-op in the source. -/
def unregisterTarget (t : Nat) (w : RouterWorld) : RouterWorld :=
  disconnect t w

/-- Router states reachable through the public `ModulationRouter` interface
from a fresh (empty-map) router over arbitrary target objects; target-local
mutations that do not go through the router (UI drags, APVTS restores) may
rewrite target states at any point. -/
inductive Reachable : RouterWorld → Prop
  | init (ts : Nat → TargetState) :
      Reachable ⟨fun _ => [], fun _ => Option.none, fun _ => Option.none, ts⟩
  | connect {w} (src t) : Reachable w → Reachable (connect src t w)
  | disconnect {w} (t) : Reachable w → Reachable (disconnect t w)
  | push {w} (src v) : Reachable w → Reachable (pushModulationValue src v w)
  | discAllUsing {w} (src) : Reachable w → Reachable (disconnectAllTargetsUsing src w)
  | discAll {w} : Reachable w → Reachable (disconnectAll w)
  | retrigger {w} (src) : Reachable w → Reachable (retriggerPush src w)
  | connectAlive {w} (src t) : Reachable w → Reachable (connectIfAlive src t w)
  | unregister {w} (t) : Reachable w → Reachable (unregisterTarget t w)
  | mutateTargets {w} (ts : Nat → TargetState) :
      Reachable w → Reachable { w with targets := ts }

/-- Graph well-formedness: membership in a source's forward list is recorded
in the reverse map, and each forward list is duplicate-free. -/
def WF (w : RouterWorld) : Prop :=
  (∀ t src, t ∈ w.s2t src → w.t2s t = some src) ∧ ∀ src, (w.s2t src).Nodup

end RouterWorld

end Synth

namespace Synth.RouterWorld

open Synth TargetState

theorem applyToTarget_s2t (t f w) : (applyToTarget t f w).s2t = w.s2t := rfl

theorem applyToTarget_t2s (t f w) : (applyToTarget t f w).t2s = w.t2s := rfl

theorem applyToTarget_lastMod (t f w) :
    (applyToTarget t f w).lastMod = w.lastMod := rfl

theorem applyToTarget_targets_self (t f w) :
    (applyToTarget t f w).targets t = f (w.targets t) :=
  Function.update_same ..

theorem applyToTarget_targets_ne {t t' : Nat} (h : t' ≠ t) (f w) :
    (applyToTarget t f w).targets t' = w.targets t' :=
  Function.update_noteq h _ _

theorem amvl_s2t (v) : ∀ (ts : List Nat) (w), (applyModValueList v ts w).s2t = w.s2t
  | [], _ => rfl
  | _ :: ts, w => amvl_s2t v ts _

theorem amvl_t2s (v) : ∀ (ts : List Nat) (w), (applyModValueList v ts w).t2s = w.t2s
  | [], _ => rfl
  | _ :: ts, w => amvl_t2s v ts _

theorem amvl_lastMod (v) : ∀ (ts : List Nat) (w),
    (applyModValueList v ts w).lastMod = w.lastMod
  | [], _ => rfl
  | _ :: ts, w => amvl_lastMod v ts _

theorem amvl_targets_not_mem {v : ℚ} {t : Nat} :
    ∀ {ts : List Nat} (w), t ∉ ts →
      (applyModValueList v ts w).targets t = w.targets t
  | [], _, _ => rfl
  | t' :: ts, w, h => by
    have h1 : t ∉ ts := fun hm => h (List.mem_cons_of_mem _ hm)
    have h2 : t ≠ t' := fun he => h (he ▸ List.mem_cons_self _ _)
    rw [applyModValueList, amvl_targets_not_mem _ h1, applyToTarget_targets_ne h2]

theorem amvl_targets_last {v : ℚ} {t : Nat} :
    ∀ {ts : List Nat} (w), t ∉ ts →
      (applyModValueList v (ts ++ [t]) w).targets t
        = TargetState.setModValue v (w.targets t)
  | [], w, _ => by
    show (applyModValueList v [] (applyToTarget t (TargetState.setModValue v) w)).targets t = _
    rw [applyModValueList, applyToTarget_targets_self]
  | t' :: ts, w, h => by
    have h1 : t ∉ ts := fun hm => h (List.mem_cons_of_mem _ hm)
    have h2 : t ≠ t' := fun he => h (he ▸ List.mem_cons_self _ _)
    show (applyModValueList v (ts ++ [t]) _).targets t = _
    rw [amvl_targets_last _ h1, applyToTarget_targets_ne h2]

theorem dal_s2t : ∀ (ts : List Nat) (w), (discAllLoop ts w).s2t = w.s2t
  | [], _ => rfl
  | t :: ts, w => by
    rw [discAllLoop]
    rw [dal_s2t ts]
    by_cases h : ((applyToTarget t (TargetState.setModMode .manual)
        (applyToTarget t TargetState.clearMod w)).targets t).kind = .knob <;>
      simp [h, applyToTarget_s2t]

theorem dal_lastMod : ∀ (ts : List Nat) (w), (discAllLoop ts w).lastMod = w.lastMod
  | [], _ => rfl
  | t :: ts, w => by
    rw [discAllLoop]
    rw [dal_lastMod ts]
    by_cases h : ((applyToTarget t (TargetState.setModMode .manual)
        (applyToTarget t TargetState.clearMod w)).targets t).kind = .knob <;>
      simp [h, applyToTarget_lastMod]

theorem dal_t2s_not_mem {t : Nat} : ∀ {ts : List Nat} (w), t ∉ ts →
    (discAllLoop ts w).t2s t = w.t2s t
  | [], _, _ => rfl
  | t' :: ts, w, h => by
    have h1 : t ∉ ts := fun hm => h (List.mem_cons_of_mem _ hm)
    have h2 : t ≠ t' := fun he => h (he ▸ List.mem_cons_self _ _)
    rw [discAllLoop]
    rw [dal_t2s_not_mem _ h1]
    by_cases h3 : ((applyToTarget t' (TargetState.setModMode .manual)
        (applyToTarget t' TargetState.clearMod w)).targets t').kind = .knob <;>
      simp [h3, applyToTarget_t2s, Function.update_noteq h2]

theorem dal_t2s_mem {t : Nat} : ∀ {ts : List Nat} (w), t ∈ ts →
    (discAllLoop ts w).t2s t = Option.none
  | [], _, h => absurd h (List.not_mem_nil t)
  | t' :: ts, w, h => by
    by_cases hm : t ∈ ts
    · rw [discAllLoop]
      exact dal_t2s_mem _ hm
    · have ht : t = t' := by
        rcases List.mem_cons.mp h with h' | h'
        · exact h'
        · exact absurd h' hm
      subst ht
      rw [discAllLoop]
      rw [dal_t2s_not_mem _ hm]
      by_cases h3 : ((applyToTarget t (TargetState.setModMode .manual)
          (applyToTarget t TargetState.clearMod w)).targets t).kind = .knob <;>
        simp [h3, applyToTarget_t2s, Function.update_same]

theorem dal_targets_not_mem {t : Nat} : ∀ {ts : List Nat} (w), t ∉ ts →
    (discAllLoop ts w).targets t = w.targets t
  | [], _, _ => rfl
  | t' :: ts, w, h => by
    have h1 : t ∉ ts := fun hm => h (List.mem_cons_of_mem _ hm)
    have h2 : t ≠ t' := fun he => h (he ▸ List.mem_cons_self _ _)
    rw [discAllLoop]
    rw [dal_targets_not_mem _ h1]
    by_cases h3 : ((applyToTarget t' (TargetState.setModMode .manual)
        (applyToTarget t' TargetState.clearMod w)).targets t').kind = .knob <;>
      simp [h3, applyToTarget_targets_ne h2]

/-- The per-target transformation performed by `disconnectAllTargetsUsing`. -/
def discAllTransform (st : TargetState) : TargetState :=
  let st2 := TargetState.setModMode .manual (TargetState.clearMod st)
  if st2.kind = .knob then { st2 with param := st2.paramDefault } else st2

theorem dal_targets_mem {t : Nat} : ∀ {ts : List Nat} (w), ts.Nodup → t ∈ ts →
    (discAllLoop ts w).targets t = discAllTransform (w.targets t)
  | [], _, _, h => absurd h (List.not_mem_nil t)
  | t' :: ts, w, hnd, h => by
    by_cases hm : t ∈ ts
    · have ht : t ≠ t' := by
        intro he
        subst he
        exact (List.nodup_cons.mp hnd).1 hm
      rw [discAllLoop]
      rw [dal_targets_mem _ (List.nodup_cons.mp hnd).2 hm]
      by_cases h3 : ((applyToTarget t' (TargetState.setModMode .manual)
          (applyToTarget t' TargetState.clearMod w)).targets t').kind = .knob <;>
        simp [h3, applyToTarget_targets_ne ht]
    · have ht : t = t' := by
        rcases List.mem_cons.mp h with h' | h'
        · exact h'
        · exact absurd h' hm
      subst ht
      rw [discAllLoop]
      rw [dal_targets_not_mem _ hm]
      rw [applyToTarget_targets_self, applyToTarget_targets_self]
      unfold discAllTransform
      by_cases h3 : (TargetState.setModMode .manual
          (TargetState.clearMod (w.targets t))).kind = .knob <;>
        simp [h3, applyToTarget_targets_self]

end Synth.RouterWorld


namespace Synth.RouterWorld

theorem wf_of_graph_eq {w w' : RouterWorld} (h1 : w'.s2t = w.s2t)
    (h2 : w'.t2s = w.t2s) (hw : WF w) : WF w' := by
  unfold WF
  rw [h1, h2]
  exact hw

theorem disconnect_none {t : Nat} {w : RouterWorld}
    (hc : w.t2s t = Option.none) : disconnect t w = w := by
  unfold disconnect
  rw [hc]

theorem disconnect_s2t_of_some {t : Nat} {w : RouterWorld} {src : ModulationSourceID}
    (hc : w.t2s t = some src) :
    (disconnect t w).s2t
      = Function.update w.s2t src ((w.s2t src).filter (fun x => x ≠ t)) := by
  unfold disconnect
  rw [hc]
  rfl

theorem disconnect_t2s_of_some {t : Nat} {w : RouterWorld} {src : ModulationSourceID}
    (hc : w.t2s t = some src) :
    (disconnect t w).t2s = Function.update w.t2s t Option.none := by
  unfold disconnect
  rw [hc]
  rfl

theorem disconnect_t2s_self (t : Nat) (w : RouterWorld) :
    (disconnect t w).t2s t = Option.none := by
  cases hc : w.t2s t with
  | none => rw [disconnect_none hc]; exact hc
  | some src => rw [disconnect_t2s_of_some hc, Function.update_same]

theorem disconnect_t2s_ne {t t' : Nat} (h : t' ≠ t) (w : RouterWorld) :
    (disconnect t w).t2s t' = w.t2s t' := by
  cases hc : w.t2s t with
  | none => rw [disconnect_none hc]
  | some src => rw [disconnect_t2s_of_some hc, Function.update_noteq h]

theorem disconnect_lastMod (t : Nat) (w : RouterWorld) :
    (disconnect t w).lastMod = w.lastMod := by
  cases hc : w.t2s t with
  | none => rw [disconnect_none hc]
  | some src =>
    unfold disconnect
    rw [hc]
    rfl

theorem mem_disconnect_of_ne {t t' : Nat} {s : ModulationSourceID} {w : RouterWorld}
    (hne : t' ≠ t) (hm : t' ∈ w.s2t s) : t' ∈ (disconnect t w).s2t s := by
  cases hc : w.t2s t with
  | none => rw [disconnect_none hc]; exact hm
  | some src =>
    rw [disconnect_s2t_of_some hc]
    by_cases hs : s = src
    · rw [hs, Function.update_same]
      simp only [List.mem_filter, decide_eq_true_eq]
      exact ⟨hs ▸ hm, hne⟩
    · rw [Function.update_noteq hs]
      exact hm

theorem mem_disconnect_imp {t t' : Nat} {s : ModulationSourceID} {w : RouterWorld}
    (hm : t' ∈ (disconnect t w).s2t s) : t' ∈ w.s2t s := by
  cases hc : w.t2s t with
  | none => rw [disconnect_none hc] at hm; exact hm
  | some src =>
    rw [disconnect_s2t_of_some hc] at hm
    by_cases hs : s = src
    · rw [hs, Function.update_same] at hm
      exact hs ▸ (List.mem_filter.mp hm).1
    · rw [Function.update_noteq hs] at hm
      exact hm

theorem WF.disconnect {w : RouterWorld} (hw : WF w) (t : Nat) :
    WF (RouterWorld.disconnect t w) := by
  cases hc : w.t2s t with
  | none => rw [disconnect_none hc]; exact hw
  | some src =>
    constructor
    · intro t' s hm
      rw [disconnect_s2t_of_some hc] at hm
      rw [disconnect_t2s_of_some hc]
      by_cases hs : s = src
      · rw [hs, Function.update_same] at hm
        simp only [List.mem_filter, decide_eq_true_eq] at hm
        rw [Function.update_noteq hm.2]
        exact hs ▸ hw.1 t' src hm.1
      · rw [Function.update_noteq hs] at hm
        have hne : t' ≠ t := by
          intro he
          subst he
          have h2 := hw.1 t' s hm
          rw [hc] at h2
          exact hs (Option.some.inj h2).symm
        rw [Function.update_noteq hne]
        exact hw.1 t' s hm
    · intro s
      rw [disconnect_s2t_of_some hc]
      by_cases hs : s = src
      · rw [hs, Function.update_same]
        exact (hw.2 src).filter _
      · rw [Function.update_noteq hs]
        exact hw.2 s

theorem not_mem_s2t_of_t2s_none {w : RouterWorld} (hw : WF w) {t : Nat}
    (h : w.t2s t = Option.none) (s : ModulationSourceID) : t ∉ w.s2t s := by
  intro hm
  have h2 := hw.1 t s hm
  rw [h] at h2
  exact Option.noConfusion h2

theorem connect_s2t (src : ModulationSourceID) (t : Nat) (w : RouterWorld) :
    (connect src t w).s2t
      = Function.update (disconnect t w).s2t src ((disconnect t w).s2t src ++ [t]) := by
  unfold connect
  cases src.ty <;> rfl

theorem connect_t2s (src : ModulationSourceID) (t : Nat) (w : RouterWorld) :
    (connect src t w).t2s = Function.update (disconnect t w).t2s t (some src) := by
  unfold connect
  cases src.ty <;> rfl

theorem connect_lastMod (src : ModulationSourceID) (t : Nat) (w : RouterWorld) :
    (connect src t w).lastMod = w.lastMod := by
  unfold connect
  cases src.ty <;> (show (disconnect t w).lastMod = w.lastMod) <;>
    exact disconnect_lastMod t w

theorem connect_t2s_self (src : ModulationSourceID) (t : Nat) (w : RouterWorld) :
    (connect src t w).t2s t = some src := by
  rw [connect_t2s, Function.update_same]

theorem WF.connect {w : RouterWorld} (hw : WF w) (src : ModulationSourceID) (t : Nat) :
    WF (RouterWorld.connect src t w) := by
  have h1 : WF (RouterWorld.disconnect t w) := hw.disconnect t
  have hnm : ∀ s, t ∉ (RouterWorld.disconnect t w).s2t s :=
    not_mem_s2t_of_t2s_none h1 (disconnect_t2s_self t w)
  constructor
  · intro t' s hm
    rw [connect_s2t] at hm
    rw [connect_t2s]
    by_cases hs : s = src
    · rw [hs, Function.update_same] at hm
      rcases List.mem_append.mp hm with h' | h'
      · have hne : t' ≠ t := fun he => hnm _ (he ▸ h')
        rw [Function.update_noteq hne]
        exact hs ▸ h1.1 t' src h'
      · have he : t' = t := List.mem_singleton.mp h'
        rw [he, Function.update_same, hs]
    · rw [Function.update_noteq hs] at hm
      have hne : t' ≠ t := fun he => hnm s (he ▸ hm)
      rw [Function.update_noteq hne]
      exact h1.1 t' s hm
  · intro s
    rw [connect_s2t]
    by_cases hs : s = src
    · rw [hs, Function.update_same]
      refine List.Nodup.append (h1.2 src) (List.nodup_singleton t) ?_
      intro a ha hb
      rw [List.mem_singleton] at hb
      subst hb
      exact hnm src ha
    · rw [Function.update_noteq hs]
      exact h1.2 s

theorem push_s2t (src : ModulationSourceID) (v : ℚ) (w : RouterWorld) :
    (pushModulationValue src v w).s2t = w.s2t := by
  unfold pushModulationValue
  rw [amvl_s2t]

theorem push_t2s (src : ModulationSourceID) (v : ℚ) (w : RouterWorld) :
    (pushModulationValue src v w).t2s = w.t2s := by
  unfold pushModulationValue
  rw [amvl_t2s]

theorem WF.push {w : RouterWorld} (hw : WF w) (src : ModulationSourceID) (v : ℚ) :
    WF (pushModulationValue src v w) :=
  wf_of_graph_eq (push_s2t ..) (push_t2s ..) hw

theorem WF.discAllUsing {w : RouterWorld} (hw : WF w) (src : ModulationSourceID) :
    WF (disconnectAllTargetsUsing src w) := by
  unfold disconnectAllTargetsUsing
  constructor
  · intro t' s hm
    replace hm : t' ∈ Function.update (discAllLoop (w.s2t src) w).s2t src [] s := hm
    show (discAllLoop (w.s2t src) w).t2s t' = some s
    by_cases hs : s = src
    · rw [hs, Function.update_same] at hm
      exact absurd hm (List.not_mem_nil t')
    · rw [Function.update_noteq hs, dal_s2t] at hm
      have hnot : t' ∉ w.s2t src := by
        intro hin
        have ha := hw.1 t' src hin
        have hb := hw.1 t' s hm
        rw [ha] at hb
        exact hs (Option.some.inj hb).symm
      rw [dal_t2s_not_mem _ hnot]
      exact hw.1 t' s hm
  · intro s
    show (Function.update (discAllLoop (w.s2t src) w).s2t src [] s).Nodup
    by_cases hs : s = src
    · rw [hs, Function.update_same]
      exact List.nodup_nil
    · rw [Function.update_noteq hs, dal_s2t]
      exact hw.2 s

theorem WF.discAll (w : RouterWorld) : WF (disconnectAll w) := by
  constructor
  · intro t s hm
    exact absurd hm (List.not_mem_nil t)
  · intro _
    exact List.nodup_nil

theorem WF.retrigger {w : RouterWorld} (hw : WF w) (src : ModulationSourceID) :
    WF (retriggerPush src w) := by
  unfold retriggerPush
  cases w.lastMod src with
  | none => exact hw
  | some v => exact wf_of_graph_eq (amvl_s2t ..) (amvl_t2s ..) hw

theorem WF.connectAlive {w : RouterWorld} (hw : WF w) (src : ModulationSourceID)
    (t : Nat) : WF (connectIfAlive src t w) := by
  unfold connectIfAlive
  cases w.lastMod src with
  | none => exact hw
  | some v => exact (hw.connect src t).retrigger src

/-- Every reachable router state is well-formed. -/
theorem reachable_wf {w : RouterWorld} (h : Reachable w) : WF w := by
  induction h with
  | init ts =>
    exact ⟨fun t s hm => absurd hm (List.not_mem_nil t), fun _ => List.nodup_nil⟩
  | connect src t _ ih => exact ih.connect src t
  | disconnect t _ ih => exact ih.disconnect t
  | push src v _ ih => exact ih.push src v
  | discAllUsing src _ ih => exact ih.discAllUsing src
  | discAll _ ih => exact WF.discAll _
  | retrigger src _ ih => exact ih.retrigger src
  | connectAlive src t _ ih => exact ih.connectAlive src t
  | unregister t _ ih => exact ih.disconnect t
  | mutateTargets ts _ ih => exact wf_of_graph_eq rfl rfl ih

end Synth.RouterWorld

namespace Synth

open RouterWorld

/-- A bank of headless proxy targets used to instantiate concrete router
scenarios: target 3 sits at parameter value 9/10 with default 1/5; all
targets use the full modulation range [0,1]. -/
def sampleTargets : Nat → TargetState := fun t =>
  if t = 3 then ⟨.proxy, .manual, 0, 0, 1, 1, false, 9/10, 1/5, 0, 1⟩
  else ⟨.proxy, .manual, 0, 0, 1, 1, false, 0, 1/2, 0, 1⟩

/-- A freshly constructed router over `sampleTargets` (all maps empty). -/
def w0 : RouterWorld :=
  ⟨fun _ => [], fun _ => Option.none, fun _ => Option.none, sampleTargets⟩

/-- C1: at every reachable router state each target is connected to at most
one source; connecting source B to a target previously connected to source A
removes the A-edge, so pushing a value on A afterwards leaves that target's
state unchanged; and a single source may stay connected to several targets. -/
theorem C1_modulation_target_exclusivity {w : RouterWorld} (hr : Reachable w) :
    (∀ (t : Nat) (s1 s2 : ModulationSourceID),
        t ∈ w.s2t s1 → t ∈ w.s2t s2 → s1 = s2) ∧
    (∀ (A B : ModulationSourceID) (t : Nat) (v : ℚ), A ≠ B →
        (pushModulationValue A v (connect B t (connect A t w))).targets t
          = (connect B t (connect A t w)).targets t ∧
        t ∉ (connect B t (connect A t w)).s2t A) ∧
    (∀ (s : ModulationSourceID) (t1 t2 : Nat), t1 ≠ t2 →
        t1 ∈ (connect s t2 (connect s t1 w)).s2t s ∧
        t2 ∈ (connect s t2 (connect s t1 w)).s2t s) := by
  have hwf : WF w := reachable_wf hr
  refine ⟨?_, ?_, ?_⟩
  · intro t s1 s2 h1 h2
    have e1 := hwf.1 t s1 h1
    have e2 := hwf.1 t s2 h2
    rw [e1] at e2
    exact Option.some.inj e2
  · intro A B t v hAB
    have hwf2 : WF (connect B t (connect A t w)) := (hwf.connect A t).connect B t
    have hnotA : t ∉ (connect B t (connect A t w)).s2t A := by
      intro hm
      have h2 := hwf2.1 t A hm
      rw [connect_t2s_self] at h2
      exact hAB (Option.some.inj h2).symm
    refine ⟨?_, hnotA⟩
    unfold pushModulationValue
    exact amvl_targets_not_mem _ hnotA
  · intro s t1 t2 h12
    have h1 : t1 ∈ (connect s t1 w).s2t s := by
      rw [connect_s2t, Function.update_same]
      exact List.mem_append_right _ (List.mem_singleton_self t1)
    constructor
    · rw [connect_s2t, Function.update_same]
      exact List.mem_append_left _ (mem_disconnect_of_ne h12 h1)
    · rw [connect_s2t, Function.update_same]
      exact List.mem_append_right _ (List.mem_singleton_self t2)

theorem C1_witness :
    (pushModulationValue ⟨.envelope, 0⟩ (3/4)
        (connect ⟨.lfo, 1⟩ 5 (connect ⟨.envelope, 0⟩ 5 w0))).targets 5
      = (connect ⟨.lfo, 1⟩ 5 (connect ⟨.envelope, 0⟩ 5 w0)).targets 5 :=
  ((C1_modulation_target_exclusivity (Reachable.init sampleTargets)).2.1
    ⟨.envelope, 0⟩ ⟨.lfo, 1⟩ 5 (3/4) (by decide)).1

/-- C2: `connectIfAlive(source, target)` is a no-op when the source has never
pushed a value; otherwise it connects the target to the source and
immediately replays the source's last pushed value to it via
`setModulationValue`. -/
theorem C2_connectIfAlive_replay {w : RouterWorld} (hw : WF w)
    (src : ModulationSourceID) (t : Nat) :
    (w.lastMod src = Option.none → connectIfAlive src t w = w) ∧
    ∀ v : ℚ, w.lastMod src = some v →
      (connectIfAlive src t w).t2s t = some src ∧
      (connectIfAlive src t w).targets t
        = TargetState.setModValue v ((connect src t w).targets t) := by
  constructor
  · intro h
    unfold connectIfAlive
    rw [h]
  · intro v h
    have e : connectIfAlive src t w = retriggerPush src (connect src t w) := by
      unfold connectIfAlive
      rw [h]
    have hlm : (connect src t w).lastMod src = some v := by
      rw [connect_lastMod]
      exact h
    have eR : retriggerPush src (connect src t w)
        = applyModValueList v ((connect src t w).s2t src) (connect src t w) := by
      unfold retriggerPush
      rw [hlm]
    have hs2t : (connect src t w).s2t src = (disconnect t w).s2t src ++ [t] := by
      rw [connect_s2t, Function.update_same]
    have hnm : t ∉ (disconnect t w).s2t src :=
      not_mem_s2t_of_t2s_none (hw.disconnect t) (disconnect_t2s_self t w) src
    constructor
    · rw [e, eR, amvl_t2s, connect_t2s_self]
    · rw [e, eR, hs2t]
      exact amvl_targets_last _ hnm

theorem C2_witness :
    (connectIfAlive ⟨.envelope, 0⟩ 7
        (pushModulationValue ⟨.envelope, 0⟩ (3/4) w0)).t2s 7
      = some ⟨.envelope, 0⟩ ∧
    (connectIfAlive ⟨.envelope, 0⟩ 7
        (pushModulationValue ⟨.envelope, 0⟩ (3/4) w0)).targets 7
      = TargetState.setModValue (3/4)
          ((connect ⟨.envelope, 0⟩ 7
            (pushModulationValue ⟨.envelope, 0⟩ (3/4) w0)).targets 7) ∧
    ((connectIfAlive ⟨.envelope, 0⟩ 7
        (pushModulationValue ⟨.envelope, 0⟩ (3/4) w0)).targets 7).param = 3/4 := by
  have hr : Reachable w0 := Reachable.init sampleTargets
  have hlm : (pushModulationValue ⟨.envelope, 0⟩ (3/4) w0).lastMod ⟨.envelope, 0⟩
      = some (3/4) := by
    unfold pushModulationValue
    rw [amvl_lastMod]
    show Function.update w0.lastMod ⟨.envelope, 0⟩ (some (3/4)) ⟨.envelope, 0⟩
      = some (3/4)
    exact Function.update_same _ _ _
  have h := (C2_connectIfAlive_replay
    (reachable_wf (Reachable.push ⟨.envelope, 0⟩ (3/4) hr))
    ⟨.envelope, 0⟩ 7).2 (3/4) hlm
  refine ⟨h.1, h.2, ?_⟩
  rw [h.2]
  simp only [connect, disconnect, applyToTarget, pushModulationValue, applyModValueList,
    w0, sampleTargets, TargetState.setModValue, TargetState.setModMode,
    TargetState.proxySetModulationMode, TargetState.proxySetModulationValue, jmap01,
    Function.update_same]
  norm_num

end Synth

namespace Synth

open RouterWorld TargetState

/-- C3: for both target variants, `setModulationValue(v)` writes the linear
remap of `v` through the stored range, clamped to [0,1], to the underlying
parameter.  The Knob writes only while in Envelope/LFO mode (the only modes
under which the router delivers values to it); the proxy's unclamped
`juce::jmap` agrees with the clamped remap because the incoming value is
normalized and the stored range lies inside [0,1]. -/
theorem C3_setModulationValue_contract (t : TargetState) (v : ℚ)
    (hv0 : 0 ≤ v) (hv1 : v ≤ 1) :
    (t.kind = .knob → t.mode = .envelope ∨ t.mode = .lfo →
      (TargetState.setModValue v t).param
        = jlimit 0 1 (t.rmin + (t.rmax - t.rmin) * v)) ∧
    (t.kind = .proxy → 0 ≤ t.rmin → t.rmin ≤ 1 → 0 ≤ t.rmax → t.rmax ≤ 1 →
      (TargetState.setModValue v t).param
        = jlimit 0 1 (t.rmin + (t.rmax - t.rmin) * v)) := by
  constructor
  · intro hk hm
    simp only [TargetState.setModValue, hk, TargetState.knobSetModulationValue,
      TargetState.engineSetValue]
    rw [if_pos hm]
  · intro hp h0 h1 h2 h3
    simp only [TargetState.setModValue, hp, TargetState.proxySetModulationValue, jmap01]
    have hx0 : 0 ≤ t.rmin + (t.rmax - t.rmin) * v := by nlinarith
    have hx1 : t.rmin + (t.rmax - t.rmin) * v ≤ 1 := by nlinarith
    unfold jlimit
    rw [if_neg (not_lt.mpr hx0), if_neg (not_lt.mpr hx1)]
    ring

/-- A knob target in Envelope mode with range [1/4, 3/4]. -/
def tKnobC3 : TargetState :=
  ⟨.knob, .envelope, 0, 1/4, 3/4, 1/2, false, 0, 0, 1/4, 3/4⟩

/-- A proxy target in LFO mode with range [1/4, 3/4]. -/
def tProxyC3 : TargetState :=
  ⟨.proxy, .lfo, 0, 1/4, 3/4, 1/2, false, 0, 0, 1/4, 3/4⟩

theorem C3_witness :
    (TargetState.setModValue (1/2) tKnobC3).param
      = jlimit 0 1 (tKnobC3.rmin + (tKnobC3.rmax - tKnobC3.rmin) * (1/2)) ∧
    (TargetState.setModValue (1/2) tProxyC3).param
      = jlimit 0 1 (tProxyC3.rmin + (tProxyC3.rmax - tProxyC3.rmin) * (1/2)) := by
  constructor
  · exact (C3_setModulationValue_contract tKnobC3 (1/2) (by norm_num) (by norm_num)).1
      rfl (Or.inl rfl)
  · exact (C3_setModulationValue_contract tProxyC3 (1/2) (by norm_num) (by norm_num)).2
      rfl (by norm_num [tProxyC3]) (by norm_num [tProxyC3])
      (by norm_num [tProxyC3]) (by norm_num [tProxyC3])

theorem discAllTransform_fields (st : TargetState) :
    (discAllTransform st).mode = .manual ∧ (discAllTransform st).rmin = 0 ∧
    (discAllTransform st).rmax = 1 ∧
    (discAllTransform st).param
      = (if st.kind = .knob then st.paramDefault else st.param) := by
  rcases st with ⟨k, m, ev, rmn, rmx, d, dr, p, pd, am, aM⟩
  cases k <;>
    simp [discAllTransform, TargetState.clearMod, TargetState.setModMode,
      TargetState.knobClearModulation, TargetState.engineClear,
      TargetState.knobSetModulationMode, TargetState.engineSetMode,
      TargetState.proxyClearModulation, TargetState.proxySetModulationMode,
      TargetState.engineSetRange]

/-- The router world for the C7 scenario: the proxy target 3 (parameter value
9/10, default 1/5) connected to LFO 0. -/
def wC7 : RouterWorld := connect ⟨.lfo, 0⟩ 3 w0

theorem wC7_s2t : wC7.s2t ⟨.lfo, 0⟩ = [3] := by
  show (connect ⟨.lfo, 0⟩ 3 w0).s2t ⟨.lfo, 0⟩ = [3]
  rw [connect_s2t, Function.update_same, disconnect_none rfl]
  rfl

theorem wC7_target3 : (wC7.targets 3).kind = .proxy ∧
    (wC7.targets 3).param = 9/10 ∧ (wC7.targets 3).paramDefault = 1/5 := by
  have e : wC7.targets 3 = TargetState.setModMode .lfo (w0.targets 3) := by
    show (applyToTarget 3 (TargetState.setModMode .lfo) _).targets 3 = _
    rw [applyToTarget_targets_self]
    rw [show (disconnect 3 w0) = w0 from disconnect_none rfl]
  rw [e]
  refine ⟨?_, ?_, ?_⟩ <;>
    simp [w0, sampleTargets, TargetState.setModMode, TargetState.proxySetModulationMode]

/-- C7 counterexample: `disconnectAllTargetsUsing` does not reset the
underlying parameter of a connected headless proxy target to its default —
the `dynamic_cast<Knob*>` branch skips proxies, so target 3 stays at 9/10
instead of its default 1/5. -/
theorem C7_counterexample :
    3 ∈ wC7.s2t ⟨.lfo, 0⟩ ∧
    (wC7.targets 3).kind = .proxy ∧
    (wC7.targets 3).paramDefault = 1/5 ∧
    ((disconnectAllTargetsUsing ⟨.lfo, 0⟩ wC7).targets 3).param = 9/10 ∧
    ((disconnectAllTargetsUsing ⟨.lfo, 0⟩ wC7).targets 3).param
      ≠ (wC7.targets 3).paramDefault := by
  obtain ⟨hk, hp, hd⟩ := wC7_target3
  have hmem : 3 ∈ wC7.s2t ⟨.lfo, 0⟩ := by
    rw [wC7_s2t]
    exact List.mem_singleton_self 3
  have e1 : (disconnectAllTargetsUsing ⟨.lfo, 0⟩ wC7).targets 3
      = discAllTransform (wC7.targets 3) := by
    show (discAllLoop (wC7.s2t ⟨.lfo, 0⟩) wC7).targets 3 = _
    rw [wC7_s2t]
    exact dal_targets_mem wC7 (List.nodup_singleton 3) (List.mem_singleton_self 3)
  have e2 := (discAllTransform_fields (wC7.targets 3)).2.2.2
  rw [hk] at e2
  simp at e2
  refine ⟨hmem, hk, hd, ?_, ?_⟩
  · rw [e1, e2, hp]
  · rw [e1, e2, hp, hd]
    norm_num

end Synth

namespace Synth

open RouterWorld TargetState

/-- C7 (amended): `disconnectAllTargetsUsing(source)` clears the modulation
mode (back to Manual) and the modulation state on every target currently
connected to that source, removes all of that source's edges from the router,
and resets the underlying parameter to its default value for `Knob` targets
only (the `dynamic_cast<Knob*>` branch); a headless proxy target keeps its
current parameter value.  Targets of other sources and the last-value cache
are unaffected. -/
theorem C7_disconnectAllTargetsUsing {w : RouterWorld} (hw : WF w)
    (src : ModulationSourceID) :
    (∀ t ∈ w.s2t src,
        ((disconnectAllTargetsUsing src w).targets t).mode = .manual ∧
        ((disconnectAllTargetsUsing src w).targets t).rmin = 0 ∧
        ((disconnectAllTargetsUsing src w).targets t).rmax = 1 ∧
        ((disconnectAllTargetsUsing src w).targets t).param
          = (if (w.targets t).kind = .knob then (w.targets t).paramDefault
             else (w.targets t).param) ∧
        (disconnectAllTargetsUsing src w).t2s t = Option.none) ∧
    (disconnectAllTargetsUsing src w).s2t src = [] ∧
    (∀ t : Nat, t ∉ w.s2t src →
        (disconnectAllTargetsUsing src w).targets t = w.targets t ∧
        (disconnectAllTargetsUsing src w).t2s t = w.t2s t) ∧
    (∀ s, s ≠ src → (disconnectAllTargetsUsing src w).s2t s = w.s2t s) ∧
    (disconnectAllTargetsUsing src w).lastMod = w.lastMod := by
  refine ⟨?_, ?_, ?_, ?_, ?_⟩
  · intro t hm
    have e1 : (disconnectAllTargetsUsing src w).targets t
        = discAllTransform (w.targets t) := by
      show (discAllLoop (w.s2t src) w).targets t = _
      exact dal_targets_mem w (hw.2 src) hm
    have e2 : (disconnectAllTargetsUsing src w).t2s t = Option.none := by
      show (discAllLoop (w.s2t src) w).t2s t = Option.none
      exact dal_t2s_mem w hm
    obtain ⟨f1, f2, f3, f4⟩ := discAllTransform_fields (w.targets t)
    rw [e1]
    exact ⟨f1, f2, f3, f4, e2⟩
  · show Function.update (discAllLoop (w.s2t src) w).s2t src [] src = []
    exact Function.update_same _ _ _
  · intro t hnm
    constructor
    · show (discAllLoop (w.s2t src) w).targets t = w.targets t
      exact dal_targets_not_mem w hnm
    · show (discAllLoop (w.s2t src) w).t2s t = w.t2s t
      exact dal_t2s_not_mem w hnm
  · intro s hs
    show Function.update (discAllLoop (w.s2t src) w).s2t src [] s = w.s2t s
    rw [Function.update_noteq hs, dal_s2t]
  · show (discAllLoop (w.s2t src) w).lastMod = w.lastMod
    exact dal_lastMod _ _

theorem C7_witness :
    (((disconnectAllTargetsUsing ⟨.lfo, 0⟩ wC7).targets 3).mode = .manual ∧
      ((disconnectAllTargetsUsing ⟨.lfo, 0⟩ wC7).targets 3).rmin = 0 ∧
      ((disconnectAllTargetsUsing ⟨.lfo, 0⟩ wC7).targets 3).rmax = 1 ∧
      ((disconnectAllTargetsUsing ⟨.lfo, 0⟩ wC7).targets 3).param
        = (if (wC7.targets 3).kind = .knob then (wC7.targets 3).paramDefault
           else (wC7.targets 3).param) ∧
      (disconnectAllTargetsUsing ⟨.lfo, 0⟩ wC7).t2s 3 = Option.none) ∧
    (disconnectAllTargetsUsing ⟨.lfo, 0⟩ wC7).s2t ⟨.lfo, 0⟩ = [] := by
  have hwf : WF wC7 :=
    reachable_wf (Reachable.connect ⟨.lfo, 0⟩ 3 (Reachable.init sampleTargets))
  have h := C7_disconnectAllTargetsUsing hwf ⟨.lfo, 0⟩
  refine ⟨h.1 3 ?_, h.2.1⟩
  rw [wC7_s2t]
  exact List.mem_singleton_self 3

end Synth

namespace Synth

/-- Phase of the `juce::ADSR` state machine. -/
inductive AdsrPhase
  | idle
  | attack
  | decay
  | sustain
  | release
deriving DecidableEq, Repr

/-- `juce::ADSR::Parameters` (seconds / level). -/
structure AdsrParams where
  attack : ℚ
  decay : ℚ
  sustain : ℚ
  release : ℚ
deriving DecidableEq, Repr

/-- Modelled from the spec: `juce::ADSR`, the framework base class of
`Envelope::EnvelopeADSR`, is not part of this repository.  The spec describes
it as the standard linear attack→decay→sustain→release state machine; the
model follows that contract: per-segment rates are distance divided by
(segment time × sample rate), zero-length segments get a non-positive rate
and are skipped, note-off re-derives the release rate from the current level
so release always lasts the configured release time. -/
structure AdsrCore where
  params : AdsrParams
  sampleRate : ℚ
  phase : AdsrPhase
  envelopeVal : ℚ
  attackRate : ℚ
  decayRate : ℚ
  releaseRate : ℚ
deriving DecidableEq, Repr

namespace AdsrCore

/-- Segment rate: distance per sample, or -1 for an instant segment. -/
def getRate (distance timeInSeconds sr : ℚ) : ℚ :=
  if 0 < timeInSeconds then distance / (timeInSeconds * sr) else -1

/-- Recompute the three segment rates from the stored parameters. -/
def recalculateRates (c : AdsrCore) : AdsrCore :=
  { c with
    attackRate := getRate 1 c.params.attack c.sampleRate,
    decayRate := getRate (1 - c.params.sustain) c.params.decay c.sampleRate,
    releaseRate := getRate c.params.sustain c.params.release c.sampleRate }

/-- `juce::ADSR::setSampleRate`. -/
def setSampleRate (sr : ℚ) (c : AdsrCore) : AdsrCore :=
  { c with sampleRate := sr }

/-- `juce::ADSR::setParameters`: store and recalculate rates. -/
def setParameters (p : AdsrParams) (c : AdsrCore) : AdsrCore :=
  recalculateRates { c with params := p }

/-- `juce::ADSR::reset`: back to idle with zero output. -/
def reset (c : AdsrCore) : AdsrCore :=
  { c with phase := .idle, envelopeVal := 0 }

/-- `juce::ADSR::noteOn`: enter attack, or skip instant segments. -/
def noteOn (c : AdsrCore) : AdsrCore :=
  if 0 < c.attackRate then { c with phase := .attack }
  else if 0 < c.decayRate then { c with envelopeVal := 1, phase := .decay }
  else { c with envelopeVal := c.params.sustain, phase := .sustain }

/-- `juce::ADSR::noteOff`: if active, re-derive the release rate from the
current level and enter release (instant release resets). -/
def noteOff (c : AdsrCore) : AdsrCore :=
  if c.phase ≠ .idle then
    if 0 < c.params.release then
      { c with releaseRate := c.envelopeVal / (c.params.release * c.sampleRate),
               phase := .release }
    else reset c
  else c

/-- Segment transition once a segment's endpoint is reached. -/
def goToNextState (c : AdsrCore) : AdsrCore :=
  match c.phase with
  | .attack => if 0 < c.decayRate then { c with phase := .decay }
               else { c with phase := .sustain }
  | .decay => { c with phase := .sustain }
  | .release => reset c
  | _ => c

/-- `juce::ADSR::getNextSample`: advance the level one sample and return it. -/
def getNextSample (c : AdsrCore) : ℚ × AdsrCore :=
  match c.phase with
  | .idle => (0, c)
  | .attack =>
    let v := c.envelopeVal + c.attackRate
    if 1 ≤ v then
      let c2 := goToNextState { c with envelopeVal := 1 }
      (c2.envelopeVal, c2)
    else (v, { c with envelopeVal := v })
  | .decay =>
    let v := c.envelopeVal - c.decayRate
    if v ≤ c.params.sustain then
      let c2 := goToNextState { c with envelopeVal := c.params.sustain }
      (c2.envelopeVal, c2)
    else (v, { c with envelopeVal := v })
  | .sustain => (c.params.sustain, { c with envelopeVal := c.params.sustain })
  | .release =>
    let v := c.envelopeVal - c.releaseRate
    if v ≤ 0 then
      let c2 := goToNextState { c with envelopeVal := v }
      (c2.envelopeVal, c2)
    else (v, { c with envelopeVal := v })

end AdsrCore

/-- `Envelope::Mode` (Normal / Auto Release). -/
inductive EnvMode
  | normal
  | autoRelease
deriving DecidableEq, Repr

/-- `Envelope::EnvelopeADSR`: the juce ADSR core plus the Auto-Release
bookkeeping (mode, attackEnded, releaseTriggered, lastValue). -/
structure EnvAdsr where
  core : AdsrCore
  mode : EnvMode
  attackEnded : Bool
  releaseTriggered : Bool
  lastValue : ℚ
deriving DecidableEq, Repr

/-- `Envelope::EnvelopeADSR::noteOn` (EnvelopeComponent.h lines 447-476):
base note-on, then in Auto-Release mode flag an instant attack, and when both
attack and release are at most 0.1 ms force the release time to 0.05 s and
jump straight to the release phase. -/
def envAdsrNoteOn (e : EnvAdsr) : EnvAdsr :=
  let e1 : EnvAdsr := { e with core := AdsrCore.noteOn e.core,
                               attackEnded := false, releaseTriggered := false }
  if e1.mode = .autoRelease then
    let p := e1.core.params
    let isInstantStart := p.attack ≤ 1/10000
    let isInstantEnd := p.release ≤ 1/10000
    let e2 := if isInstantStart then { e1 with attackEnded := true } else e1
    if isInstantStart ∧ isInstantEnd then
      let adjusted := { p with release := 1/20 }
      let c1 := AdsrCore.setParameters adjusted e2.core
      { e2 with core := AdsrCore.noteOff c1, releaseTriggered := true }
    else e2
  else e1

/-- `Envelope::EnvelopeADSR::getNextSample` (EnvelopeComponent.h 478-503):
base sample, then in Auto-Release mode (while not yet released) watch for the
attack to finish (level ≥ 0.99) and then for the level to fall to the sustain
level, at which point note-off fires automatically. -/
def envAdsrGetNextSample (e : EnvAdsr) : ℚ × EnvAdsr :=
  let r := AdsrCore.getNextSample e.core
  let value := r.1
  let e1 : EnvAdsr := { e with core := r.2 }
  let e2 :=
    if e1.mode = .autoRelease ∧ e1.releaseTriggered = false then
      if e1.attackEnded = false then
        if 99/100 ≤ value then { e1 with attackEnded := true } else e1
      else
        if value ≤ e1.core.params.sustain then
          { e1 with core := AdsrCore.noteOff e1.core, releaseTriggered := true }
        else e1
    else e1
  (value, { e2 with lastValue := value })

/-- Iterated `getNextSample` (state after `k` samples). -/
def envAdsrRun : ℕ → EnvAdsr → EnvAdsr
  | 0, e => e
  | k + 1, e => envAdsrRun k (envAdsrGetNextSample e).2

/-- `FormattingUtils::normalizedToValue` for `FormatType::Time`: cube the
clamped normalized value and map linearly into [minValue, maxValue]. -/
def normalizedToValueTime (n minValue maxValue : ℚ) : ℚ :=
  jmap01 ((jlimit 0 1 n) ^ (3 : ℕ)) minValue maxValue

/-- `Envelope::mapToADSRParams`: times mapped through the cubic curve over
[1 ms, 5000 ms] then converted to seconds; sustain clamped to [0,1]. -/
def mapToADSRParams (a d s r : ℚ) : AdsrParams :=
  { attack := normalizedToValueTime a 1 5000 / 1000,
    decay := normalizedToValueTime d 1 5000 / 1000,
    sustain := jlimit 0 1 s,
    release := normalizedToValueTime r 1 5000 / 1000 }

/-- `Envelope::VoiceEnvelope`: one slot of the fixed 16-voice pool. -/
structure VoiceSlot where
  midiNote : Int
  active : Bool
  adsr : EnvAdsr
  params : AdsrParams
deriving DecidableEq, Repr

/-- First half of the `Envelope::noteOn` loop body: a slot already holding
the same note is reset and freed before reuse. -/
def resetIfSameNote (note : Int) (v : VoiceSlot) : VoiceSlot :=
  if v.active = true ∧ v.midiNote = note then
    { v with adsr := { v.adsr with core := AdsrCore.reset v.adsr.core },
             active := false, midiNote := -1 }
  else v

/-- Second half of the `Envelope::noteOn` loop body: claim an inactive slot
(set note and parameters, push the sample rate and parameters into the ADSR,
fire its note-on). -/
def claimVoice (note : Int) (newParams : AdsrParams) (sr : ℚ) (v : VoiceSlot) :
    VoiceSlot :=
  { v with midiNote := note, active := true, params := newParams,
           adsr := envAdsrNoteOn
             { v.adsr with
               core := AdsrCore.setParameters newParams
                 (AdsrCore.setSampleRate sr v.adsr.core) } }

/-- The `Envelope::noteOn` slot scan (EnvelopeComponent.h 260-286): walk the
pool in order, resetting a same-note slot when encountered, and claim the
first inactive slot (returning immediately); if no slot is claimed the
note-on is dropped. -/
def envNoteOnLoop (note : Int) (newParams : AdsrParams) (sr : ℚ) :
    List VoiceSlot → List VoiceSlot
  | [] => []
  | v :: rest =>
    let v1 := resetIfSameNote note v
    if v1.active = false then claimVoice note newParams sr v1 :: rest
    else v1 :: envNoteOnLoop note newParams sr rest

/-- `Envelope` state: the voice pool plus cached normalized parameters. -/
structure EnvelopeState where
  voices : List VoiceSlot
  attackNorm : ℚ
  decayNorm : ℚ
  sustainNorm : ℚ
  releaseNorm : ℚ
  sampleRate : ℚ
  mode : EnvMode
deriving Repr

/-- `Envelope::noteOn`: map the cached normalized parameters and run the
slot scan. -/
def EnvelopeState.noteOn (note : Int) (env : EnvelopeState) : EnvelopeState :=
  { env with
    voices :=
      envNoteOnLoop note
        (mapToADSRParams env.attackNorm env.decayNorm env.sustainNorm env.releaseNorm)
        env.sampleRate env.voices }

end Synth

namespace Synth

theorem resetIfSameNote_of_not {note : Int} {v : VoiceSlot}
    (h : ¬(v.active = true ∧ v.midiNote = note)) : resetIfSameNote note v = v := by
  rw [resetIfSameNote, if_neg h]

theorem resetIfSameNote_active_false {note : Int} {v : VoiceSlot}
    (h : v.active = false ∨ v.midiNote = note) :
    (resetIfSameNote note v).active = false := by
  rcases h with h | h
  · rw [resetIfSameNote]
    by_cases hc : v.active = true ∧ v.midiNote = note
    · rw [if_pos hc]
    · rw [if_neg hc]
      exact h
  · cases ha : v.active with
    | false =>
      rw [resetIfSameNote]
      by_cases hc : v.active = true ∧ v.midiNote = note
      · rw [if_pos hc]
      · rw [if_neg hc]
        exact ha
    | true => rw [resetIfSameNote, if_pos ⟨ha, h⟩]

/-- C4 (amended): the `noteOn` slot scan is strictly sequential — it resets a
same-note slot only when that slot is encountered before any inactive slot,
and claims the first slot that is inactive or holds the note; every other
slot, including a later slot still holding the same note, is left untouched;
when all slots are active with other notes the note-on is silently dropped
(the pool is unchanged). -/
theorem C4_noteOn_voice_allocation (note : Int) (p : AdsrParams) (sr : ℚ) :
    (∀ vs : List VoiceSlot, (∀ v ∈ vs, v.active = true ∧ v.midiNote ≠ note) →
        envNoteOnLoop note p sr vs = vs) ∧
    (∀ (pre post : List VoiceSlot) (v : VoiceSlot),
        (∀ u ∈ pre, u.active = true ∧ u.midiNote ≠ note) →
        (v.active = false ∨ v.midiNote = note) →
        envNoteOnLoop note p sr (pre ++ v :: post)
          = pre ++ claimVoice note p sr (resetIfSameNote note v) :: post) := by
  constructor
  · intro vs h
    induction vs with
    | nil => rfl
    | cons v rest ih =>
      have hv := h v (List.mem_cons_self ..)
      have hnr : resetIfSameNote note v = v :=
        resetIfSameNote_of_not (fun hc => hv.2 hc.2)
      rw [envNoteOnLoop, hnr, if_neg (by rw [hv.1]; exact fun hc => Bool.noConfusion hc),
        ih (fun u hu => h u (List.mem_cons_of_mem _ hu))]
  · intro pre post v hpre hv
    induction pre with
    | nil =>
      rw [List.nil_append, List.nil_append, envNoteOnLoop,
        if_pos (resetIfSameNote_active_false hv)]
    | cons u pre' ih =>
      have hu := hpre u (List.mem_cons_self ..)
      have hnr : resetIfSameNote note u = u :=
        resetIfSameNote_of_not (fun hc => hu.2 hc.2)
      rw [List.cons_append, envNoteOnLoop, hnr,
        if_neg (by rw [hu.1]; exact fun hc => Bool.noConfusion hc),
        ih (fun x hx => hpre x (List.mem_cons_of_mem _ hx)), List.cons_append]

/-- An idle ADSR as constructed at startup (juce defaults). -/
def idleAdsr : EnvAdsr :=
  ⟨AdsrCore.recalculateRates ⟨⟨1/10, 1/10, 1, 1/10⟩, 44100, .idle, 0, 0, 0, 0⟩,
   .normal, false, false, 0⟩

/-- A free voice slot. -/
def blankSlot : VoiceSlot := ⟨-1, false, idleAdsr, ⟨1/10, 1/10, 1, 1/10⟩⟩

/-- A voice slot sustaining MIDI note 60. -/
def busySlot60 : VoiceSlot :=
  ⟨60, true,
   ⟨⟨⟨1/10, 1/10, 1, 1/10⟩, 48000, .sustain, 1, 0, 0, 0⟩, .normal, true, false, 1⟩,
   ⟨1/10, 1/10, 1, 1/10⟩⟩

/-- A voice slot sustaining MIDI note 61. -/
def busySlot61 : VoiceSlot :=
  ⟨61, true,
   ⟨⟨⟨1/10, 1/10, 1, 1/10⟩, 48000, .sustain, 1, 0, 0, 0⟩, .normal, true, false, 1⟩,
   ⟨1/10, 1/10, 1, 1/10⟩⟩

/-- Concrete new-note parameters for the C4 scenarios. -/
def pC4 : AdsrParams := ⟨1/1000, 1/1000, 1, 1/1000⟩

/-- C4 counterexample: with a 16-slot pool whose first slot is free while the
second slot is active holding note 60, `noteOn(60)` claims the free first
slot and returns, leaving the slot that already holds 60 active and un-reset
(two active slots now hold the note) — the matching slot is neither
force-reset nor reused, contrary to the claim. -/
theorem C4_counterexample :
    envNoteOnLoop 60 pC4 48000 (blankSlot :: busySlot60 :: List.replicate 14 blankSlot)
      = claimVoice 60 pC4 48000 blankSlot :: busySlot60 :: List.replicate 14 blankSlot ∧
    blankSlot.active = false ∧
    busySlot60.active = true ∧
    busySlot60.midiNote = 60 ∧
    busySlot60.adsr.core.phase = .sustain ∧
    (claimVoice 60 pC4 48000 blankSlot).active = true ∧
    (claimVoice 60 pC4 48000 blankSlot).midiNote = 60 :=
  ⟨rfl, rfl, rfl, rfl, rfl, rfl, rfl⟩

theorem C4_witness :
    envNoteOnLoop 60 pC4 48000 (busySlot61 :: blankSlot :: List.replicate 14 blankSlot)
      = busySlot61 :: claimVoice 60 pC4 48000 (resetIfSameNote 60 blankSlot)
          :: List.replicate 14 blankSlot := by
  have h := (C4_noteOn_voice_allocation 60 pC4 48000).2 [busySlot61]
    (List.replicate 14 blankSlot) blankSlot
    (by
      intro u hu
      rw [List.mem_singleton] at hu
      subst hu
      exact ⟨rfl, by decide⟩)
    (Or.inl rfl)
  exact h

end Synth

namespace Synth

theorem AdsrCore.noteOn_params (c : AdsrCore) : (AdsrCore.noteOn c).params = c.params := by
  unfold AdsrCore.noteOn
  by_cases h1 : 0 < c.attackRate
  · rw [if_pos h1]
  · rw [if_neg h1]
    by_cases h2 : 0 < c.decayRate
    · rw [if_pos h2]
    · rw [if_neg h2]

theorem AdsrCore.noteOn_phase_ne_idle (c : AdsrCore) :
    (AdsrCore.noteOn c).phase ≠ .idle := by
  unfold AdsrCore.noteOn
  by_cases h1 : 0 < c.attackRate
  · rw [if_pos h1]
    exact fun h => AdsrPhase.noConfusion h
  · rw [if_neg h1]
    by_cases h2 : 0 < c.decayRate
    · rw [if_pos h2]
      exact fun h => AdsrPhase.noConfusion h
    · rw [if_neg h2]
      exact fun h => AdsrPhase.noConfusion h

theorem AdsrCore.setParameters_params (p : AdsrParams) (c : AdsrCore) :
    (AdsrCore.setParameters p c).params = p := rfl

theorem AdsrCore.setParameters_phase (p : AdsrParams) (c : AdsrCore) :
    (AdsrCore.setParameters p c).phase = c.phase := rfl

theorem AdsrCore.noteOff_of_active {c : AdsrCore} (h1 : c.phase ≠ .idle)
    (h2 : 0 < c.params.release) :
    AdsrCore.noteOff c
      = { c with releaseRate := c.envelopeVal / (c.params.release * c.sampleRate),
                 phase := .release } := by
  unfold AdsrCore.noteOff
  rw [if_pos h1, if_pos h2]

/-- The state produced by `EnvelopeADSR::noteOn` in Auto-Release mode when
both attack and release are instant: forced parameters plus the immediate
note-off. -/
theorem envAdsrNoteOn_instant {e : EnvAdsr} (hm : e.mode = .autoRelease)
    (ha : e.core.params.attack ≤ 1/10000) (hr : e.core.params.release ≤ 1/10000) :
    envAdsrNoteOn e
      = { e with
          core := AdsrCore.noteOff
            (AdsrCore.setParameters { e.core.params with release := 1/20 }
              (AdsrCore.noteOn e.core)),
          attackEnded := true, releaseTriggered := true } := by
  unfold envAdsrNoteOn
  dsimp only
  rw [if_pos hm, AdsrCore.noteOn_params, if_pos ha, if_pos ⟨ha, hr⟩]

/-- C6, part (amended): in Auto-Release mode with attack and release both at
most 0.1 ms, note-on forces the release time to 0.05 s and jumps straight to
the release phase; and when the attack time is exactly zero (the spec's own
test input) the resulting pulse is non-empty (first sample positive) and
finite (silent and idle from sample ⌈sampleRate/20⌉ on). -/
theorem C6_forced_release {e : EnvAdsr} (hm : e.mode = .autoRelease)
    (ha : e.core.params.attack ≤ 1/10000) (hr : e.core.params.release ≤ 1/10000) :
    (envAdsrNoteOn e).core.params.release = 1/20 ∧
    (envAdsrNoteOn e).core.phase = .release ∧
    (envAdsrNoteOn e).releaseTriggered = true := by
  rw [envAdsrNoteOn_instant hm ha hr]
  have hact : (AdsrCore.setParameters { e.core.params with release := 1/20 }
      (AdsrCore.noteOn e.core)).phase ≠ .idle := by
    rw [AdsrCore.setParameters_phase]
    exact AdsrCore.noteOn_phase_ne_idle e.core
  have hrel : (0:ℚ) < (AdsrCore.setParameters { e.core.params with release := 1/20 }
      (AdsrCore.noteOn e.core)).params.release := by
    rw [AdsrCore.setParameters_params]
    norm_num
  refine ⟨?_, ?_, rfl⟩
  · show (AdsrCore.noteOff _).params.release = 1/20
    rw [AdsrCore.noteOff_of_active hact hrel]
    rfl
  · show (AdsrCore.noteOff _).phase = .release
    rw [AdsrCore.noteOff_of_active hact hrel]

end Synth

namespace Synth

/-- A default-constructed `juce::ADSR` core (juce default parameters). -/
def freshCore : AdsrCore :=
  AdsrCore.recalculateRates ⟨⟨1/10, 1/10, 1, 1/10⟩, 44100, .idle, 0, 0, 0, 0⟩

/-- A freshly prepared Auto-Release `EnvelopeADSR` voice: sample rate and
parameters pushed into a default core, nothing triggered yet. -/
def freshAutoRelease (p : AdsrParams) (sr : ℚ) : EnvAdsr :=
  ⟨AdsrCore.setParameters p (AdsrCore.setSampleRate sr freshCore),
   .autoRelease, false, false, 0⟩

/-- State right after note-on for the spec's all-instant test input
(attack = 0, decay = 0, release = rel ≤ 0.1 ms, sustain = s). -/
def instantPulse (s sr rel : ℚ) : EnvAdsr :=
  envAdsrNoteOn (freshAutoRelease ⟨0, 0, s, rel⟩ sr)

theorem instantPulse_eq {s sr rel : ℚ} (hrel : rel ≤ 1/10000) :
    instantPulse s sr rel
      = ⟨⟨⟨0, 0, s, 1/20⟩, sr, .release, s, -1, -1, s / (1/20 * sr)⟩,
         .autoRelease, true, true, 0⟩ := by
  unfold instantPulse
  rw [envAdsrNoteOn_instant rfl
    (by show (0:ℚ) ≤ 1/10000; norm_num)
    (by show rel ≤ 1/10000; exact hrel)]
  norm_num [freshAutoRelease, freshCore, AdsrCore.setSampleRate,
    AdsrCore.setParameters, AdsrCore.recalculateRates, AdsrCore.getRate,
    AdsrCore.noteOn, AdsrCore.noteOff, AdsrCore.reset]
  exact fun h => AdsrPhase.noConfusion h

theorem envAdsrRun_succ (k : ℕ) (e : EnvAdsr) :
    envAdsrRun (k + 1) e = (envAdsrGetNextSample (envAdsrRun k e)).2 := by
  induction k generalizing e with
  | zero => rfl
  | succ k ih =>
    show envAdsrRun (k + 1) (envAdsrGetNextSample e).2 = _
    rw [ih]
    rfl

/-- `EnvelopeADSR::getNextSample` once the automatic release already fired:
the Auto-Release monitor is skipped and the call is the plain core step plus
the `lastValue` cache. -/
theorem envAdsrGetNextSample_skip {e : EnvAdsr} (ht : e.releaseTriggered = true) :
    envAdsrGetNextSample e
      = ((AdsrCore.getNextSample e.core).1,
         { e with core := (AdsrCore.getNextSample e.core).2,
                  lastValue := (AdsrCore.getNextSample e.core).1 }) := by
  unfold envAdsrGetNextSample
  dsimp only
  rw [if_neg]
  intro h
  rw [ht] at h
  exact Bool.noConfusion h.2

theorem AdsrCore.getNextSample_idle {c : AdsrCore} (hp : c.phase = .idle) :
    AdsrCore.getNextSample c = (0, c) := by
  obtain ⟨p, sr, ph, v, a, d, r⟩ := c
  cases hp
  rfl

theorem AdsrCore.getNextSample_release_pos {c : AdsrCore} (hp : c.phase = .release)
    (h : ¬(c.envelopeVal - c.releaseRate ≤ 0)) :
    AdsrCore.getNextSample c
      = (c.envelopeVal - c.releaseRate,
         { c with envelopeVal := c.envelopeVal - c.releaseRate }) := by
  obtain ⟨p, sr, ph, v, a, d, r⟩ := c
  cases hp
  unfold AdsrCore.getNextSample
  dsimp only
  rw [if_neg h]

theorem AdsrCore.getNextSample_release_end {c : AdsrCore} (hp : c.phase = .release)
    (h : c.envelopeVal - c.releaseRate ≤ 0) :
    AdsrCore.getNextSample c = (0, { c with phase := .idle, envelopeVal := 0 }) := by
  obtain ⟨p, sr, ph, v, a, d, r⟩ := c
  cases hp
  unfold AdsrCore.getNextSample
  dsimp only
  rw [if_pos h]
  rfl

/-- The core while the forced-release pulse is still decaying: level
`s - k·rate` after `k` samples. -/
def pulseState (s sr : ℚ) (k : ℕ) : AdsrCore :=
  ⟨⟨0, 0, s, 1/20⟩, sr, .release, s - k * (s / (1/20 * sr)), -1, -1, s / (1/20 * sr)⟩

theorem pulse_traj {s sr rel : ℚ} (hs : 0 < s) (hsr : 0 < sr)
    (hrel : rel ≤ 1/10000) (k : ℕ) :
    (envAdsrRun k (instantPulse s sr rel)).mode = .autoRelease ∧
    (envAdsrRun k (instantPulse s sr rel)).releaseTriggered = true ∧
    (((k : ℚ) * (s / (1/20 * sr)) < s ∧
       (envAdsrRun k (instantPulse s sr rel)).core = pulseState s sr k) ∨
     (s ≤ (k : ℚ) * (s / (1/20 * sr)) ∧
       (envAdsrRun k (instantPulse s sr rel)).core.phase = .idle ∧
       (envAdsrRun k (instantPulse s sr rel)).core.envelopeVal = 0)) := by
  have hRpos : 0 < s / (1/20 * sr) := by positivity
  induction k with
  | zero =>
    rw [show envAdsrRun 0 (instantPulse s sr rel) = instantPulse s sr rel from rfl,
      instantPulse_eq hrel]
    refine ⟨rfl, rfl, Or.inl ⟨by simpa using hs, ?_⟩⟩
    unfold pulseState
    norm_num
  | succ k ih =>
    obtain ⟨hm, ht, hcase⟩ := ih
    rw [envAdsrRun_succ, envAdsrGetNextSample_skip ht]
    rcases hcase with ⟨hlt, hcore⟩ | ⟨hge, hidle, hval⟩
    · by_cases hend : (envAdsrRun k (instantPulse s sr rel)).core.envelopeVal
          - (envAdsrRun k (instantPulse s sr rel)).core.releaseRate ≤ 0
      · rw [AdsrCore.getNextSample_release_end (by rw [hcore]; rfl) hend]
        refine ⟨hm, ht, Or.inr ⟨?_, rfl, rfl⟩⟩
        rw [hcore] at hend
        unfold pulseState at hend
        dsimp only at hend
        push_cast
        nlinarith
      · rw [AdsrCore.getNextSample_release_pos (by rw [hcore]; rfl) hend]
        refine ⟨hm, ht, Or.inl ⟨?_, ?_⟩⟩
        · rw [hcore] at hend
          unfold pulseState at hend
          dsimp only at hend
          push_cast
          nlinarith
        · rw [hcore]
          unfold pulseState
          dsimp only
          push_cast
          rw [AdsrCore.mk.injEq]
          refine ⟨rfl, rfl, rfl, by ring, rfl, rfl, rfl⟩
    · rw [AdsrCore.getNextSample_idle hidle]
      refine ⟨hm, ht, Or.inr ⟨?_, hidle, hval⟩⟩
      push_cast
      nlinarith

end Synth

namespace Synth

/-- C6 (amended): in Auto-Release mode, whenever both the attack and the
release time are at most 0.1 ms, note-on forces the release time to 0.05 s
and jumps straight to the release phase; and for the spec's test input
(attack = 0, decay = 0, instant release, positive sustain) the resulting
output pulse is non-empty (its first sample is positive) and finite (the
envelope is idle and silent from sample `sampleRate/20` on). -/
theorem C6_autoRelease_instant :
    (∀ e : EnvAdsr, e.mode = .autoRelease →
        e.core.params.attack ≤ 1/10000 → e.core.params.release ≤ 1/10000 →
        (envAdsrNoteOn e).core.params.release = 1/20 ∧
        (envAdsrNoteOn e).core.phase = .release ∧
        (envAdsrNoteOn e).releaseTriggered = true) ∧
    (∀ s sr rel : ℚ, 0 < s → 20 < sr → rel ≤ 1/10000 →
        0 < (envAdsrGetNextSample (instantPulse s sr rel)).1 ∧
        ∀ k : ℕ, sr / 20 ≤ (k : ℚ) →
          (envAdsrRun k (instantPulse s sr rel)).core.phase = .idle ∧
          (envAdsrGetNextSample (envAdsrRun k (instantPulse s sr rel))).1 = 0) := by
  constructor
  · intro e hm ha hr
    exact C6_forced_release hm ha hr
  · intro s sr rel hs hsr20 hrel
    have hsr : 0 < sr := by linarith
    have h20 : (0:ℚ) < 1/20 * sr := by positivity
    constructor
    · rw [instantPulse_eq hrel, envAdsrGetNextSample_skip rfl]
      have hpos : ¬((s : ℚ) - s / (1/20 * sr) ≤ 0) := by
        rw [not_le, sub_pos, div_lt_iff₀ h20]
        nlinarith
      rw [AdsrCore.getNextSample_release_pos rfl hpos]
      rw [not_le] at hpos
      exact hpos
    · intro k hk
      obtain ⟨hm2, ht, hcase⟩ := pulse_traj hs hsr hrel k
      have hge : s ≤ (k : ℚ) * (s / (1/20 * sr)) := by
        have e1 : (1:ℚ)/20 * sr = sr/20 := by ring
        have h2 : (0:ℚ) < sr/20 := by positivity
        have h3 : (0:ℚ) ≤ s / (sr/20) := by positivity
        calc s = (sr/20) * (s/(sr/20)) := by field_simp; ring
          _ ≤ (k : ℚ) * (s/(sr/20)) := mul_le_mul_of_nonneg_right hk h3
          _ = (k : ℚ) * (s/(1/20 * sr)) := by rw [e1]
      rcases hcase with ⟨hlt, _⟩ | ⟨_, hidle, _⟩
      · exact absurd hlt (not_lt.mpr hge)
      · refine ⟨hidle, ?_⟩
        rw [envAdsrGetNextSample_skip ht, AdsrCore.getNextSample_idle hidle]

/-- The fresh Auto-Release voice of the C6 counterexample: attack and release
both 0.05 ms (inside the instant window) but strictly positive. -/
def eC6pre : EnvAdsr := freshAutoRelease ⟨1/20000, 1/200, 1, 1/20000⟩ 48000

/-- The same voice right after `EnvelopeADSR::noteOn`. -/
def eC6 : EnvAdsr := envAdsrNoteOn eC6pre

/-- C6 counterexample: with a tiny-but-positive attack (0.05 ms ≤ 0.1 ms) the
base note-on enters the attack phase at level 0, so the forced note-off
computes a zero release rate from the zero level; the first sample after
note-on is already 0 and the envelope is idle — a zero-duration pulse, not
the non-zero-duration pulse the claim promises for every attack ≤ 0.1 ms. -/
theorem C6_counterexample :
    eC6pre.mode = .autoRelease ∧
    eC6pre.core.params.attack ≤ 1/10000 ∧
    eC6pre.core.params.release ≤ 1/10000 ∧
    (envAdsrGetNextSample eC6).1 = 0 ∧
    (envAdsrGetNextSample eC6).2.core.phase = .idle := by
  have ha : eC6pre.core.params.attack ≤ 1/10000 := by
    show (1:ℚ)/20000 ≤ 1/10000
    norm_num
  have hr : eC6pre.core.params.release ≤ 1/10000 := by
    show (1:ℚ)/20000 ≤ 1/10000
    norm_num
  have h0 := C6_forced_release (e := eC6pre) rfl ha hr
  have hph : eC6.core.phase = .release := h0.2.1
  have htr : eC6.releaseTriggered = true := h0.2.2
  have hzero : eC6.core.envelopeVal = 0 ∧ eC6.core.releaseRate = 0 := by
    show (envAdsrNoteOn eC6pre).core.envelopeVal = 0 ∧
      (envAdsrNoteOn eC6pre).core.releaseRate = 0
    rw [envAdsrNoteOn_instant rfl ha hr]
    norm_num [eC6pre, freshAutoRelease, freshCore, AdsrCore.setSampleRate,
      AdsrCore.setParameters, AdsrCore.recalculateRates, AdsrCore.getRate,
      AdsrCore.noteOn, AdsrCore.noteOff, AdsrCore.reset]
    exact ⟨by rw [if_neg (fun h => AdsrPhase.noConfusion h)],
      by rw [if_neg (fun h => AdsrPhase.noConfusion h)]⟩
  have hend : eC6.core.envelopeVal - eC6.core.releaseRate ≤ 0 := by
    rw [hzero.1, hzero.2]
    norm_num
  refine ⟨rfl, ha, hr, ?_, ?_⟩
  · rw [envAdsrGetNextSample_skip htr,
      AdsrCore.getNextSample_release_end hph hend]
  · rw [envAdsrGetNextSample_skip htr,
      AdsrCore.getNextSample_release_end hph hend]

theorem C6_witness :
    ((envAdsrNoteOn (freshAutoRelease ⟨0, 0, 1, 0⟩ 48000)).core.params.release = 1/20 ∧
     (envAdsrNoteOn (freshAutoRelease ⟨0, 0, 1, 0⟩ 48000)).core.phase = .release ∧
     (envAdsrNoteOn (freshAutoRelease ⟨0, 0, 1, 0⟩ 48000)).releaseTriggered = true) ∧
    0 < (envAdsrGetNextSample (instantPulse 1 48000 0)).1 ∧
    (envAdsrRun 2400 (instantPulse 1 48000 0)).core.phase = .idle := by
  have h := C6_autoRelease_instant
  refine ⟨h.1 _ rfl (by show (0:ℚ) ≤ 1/10000; norm_num)
      (by show (0:ℚ) ≤ 1/10000; norm_num), ?_, ?_⟩
  · exact (h.2 1 48000 0 (by norm_num) (by norm_num) (by norm_num)).1
  · exact ((h.2 1 48000 0 (by norm_num) (by norm_num) (by norm_num)).2 2400
      (by norm_num)).1

end Synth

namespace Synth

/-- Per-note zero-crossing gate state: `NoteData::pendingNoteOff` and
`NoteData::lastSample` from the Oscillator.  The summed unison waveform
sample is computed upstream of the gate each call and is unaffected by it
(the note keeps generating audio while pending). -/
structure NoteGate where
  pendingNoteOff : Bool
  lastSample : ℚ
deriving DecidableEq, Repr

/-- One sample of the gating in `Oscillator::getNextSample` (lines 573-580):
the deferred note-off is forwarded to the envelope exactly when the note-off
is pending and the product of the previous and current summed samples is
negative; the pending flag is then cleared, and the current sample is always
recorded as `lastSample`.  Returns (note-off fired?, new gate). -/
def noteGateStep (g : NoteGate) (sumSample : ℚ) : Bool × NoteGate :=
  if g.pendingNoteOff = true ∧ g.lastSample * sumSample < 0 then
    (true, ⟨false, sumSample⟩)
  else
    (false, ⟨g.pendingNoteOff, sumSample⟩)

/-- Fired-flags trace of the gate over a sequence of summed samples. -/
def noteGateRun (g : NoteGate) : List ℚ → List Bool
  | [] => []
  | x :: xs => (noteGateStep g x).1 :: noteGateRun (noteGateStep g x).2 xs

/-- Gate state after processing a sequence of summed samples. -/
def noteGateRunState (g : NoteGate) : List ℚ → NoteGate
  | [] => g
  | x :: xs => noteGateRunState (noteGateStep g x).2 xs

/-- The product of the samples surrounding index `i`: `lastSample` times the
first sample at `i = 0`, consecutive samples afterwards. -/
def prevProd (g : NoteGate) (samples : List ℚ) : ℕ → ℚ
  | 0 => g.lastSample * samples.getD 0 0
  | i + 1 => samples.getD i 0 * samples.getD (i + 1) 0

theorem getD_replicate_false (n i : ℕ) :
    (List.replicate n false).getD i false = false := by
  induction n generalizing i with
  | zero => cases i <;> rfl
  | succ n ih =>
    cases i with
    | zero => rfl
    | succ i => exact ih i

theorem noteGateRun_not_pending {g : NoteGate} (h : g.pendingNoteOff = false) :
    ∀ samples : List ℚ, noteGateRun g samples = List.replicate samples.length false
  | [] => rfl
  | x :: xs => by
    rw [noteGateRun]
    have hstep : noteGateStep g x = (false, ⟨false, x⟩) := by
      unfold noteGateStep
      rw [if_neg]
      · rw [h]
      · intro hc
        rw [h] at hc
        exact Bool.noConfusion hc.1
    rw [hstep, noteGateRun_not_pending rfl xs]
    rfl

theorem noteGateRun_count_le_one (g : NoteGate) :
    ∀ samples : List ℚ, (noteGateRun g samples).count true ≤ 1
  | [] => Nat.zero_le 1
  | x :: xs => by
    rw [noteGateRun]
    by_cases hc : g.pendingNoteOff = true ∧ g.lastSample * x < 0
    · rw [show noteGateStep g x = (true, ⟨false, x⟩) from by
        unfold noteGateStep; rw [if_pos hc]]
      rw [noteGateRun_not_pending rfl xs]
      simp [List.count_replicate]
    · rw [show noteGateStep g x = (false, ⟨g.pendingNoteOff, x⟩) from by
        unfold noteGateStep; rw [if_neg hc]]
      have := noteGateRun_count_le_one ⟨g.pendingNoteOff, x⟩ xs
      simpa using this

theorem prevProd_shift (g : NoteGate) (p : Bool) (x : ℚ) (xs : List ℚ) (i : ℕ) :
    prevProd g (x :: xs) (i + 1) = prevProd ⟨p, x⟩ xs i := by
  cases i with
  | zero => rfl
  | succ i => rfl

theorem noteGateRun_firing (g : NoteGate) :
    ∀ samples : List ℚ, ∀ i, i < samples.length →
      ((noteGateRun g samples).getD i false = true ↔
        g.pendingNoteOff = true ∧ prevProd g samples i < 0 ∧
        ∀ j, j < i → 0 ≤ prevProd g samples j)
  | [], i, h => absurd h (Nat.not_lt_zero i)
  | x :: xs, 0, _ => by
    rw [noteGateRun]
    unfold noteGateStep
    by_cases hc : g.pendingNoteOff = true ∧ g.lastSample * x < 0
    · rw [if_pos hc]
      simp only [List.getD_cons_zero]
      constructor
      · intro _
        exact ⟨hc.1, hc.2, fun j hj => absurd hj (Nat.not_lt_zero j)⟩
      · intro _
        trivial
    · rw [if_neg hc]
      simp only [List.getD_cons_zero]
      constructor
      · intro hf
        exact Bool.noConfusion hf
      · intro ⟨h1, h2, _⟩
        exact absurd ⟨h1, h2⟩ hc
  | x :: xs, i + 1, h => by
    rw [noteGateRun]
    have hlen : i < xs.length := Nat.lt_of_succ_lt_succ h
    by_cases hc : g.pendingNoteOff = true ∧ g.lastSample * x < 0
    · rw [show noteGateStep g x = (true, ⟨false, x⟩) from by
        unfold noteGateStep; rw [if_pos hc]]
      simp only [List.getD_cons_succ]
      rw [noteGateRun_not_pending rfl xs]
      constructor
      · intro hf
        rw [getD_replicate_false] at hf
        exact Bool.noConfusion hf
      · intro ⟨_, _, hall⟩
        have h0 : (0:ℚ) ≤ g.lastSample * x := hall 0 (Nat.succ_pos i)
        exact absurd hc.2 (not_lt.mpr h0)
    · rw [show noteGateStep g x = (false, ⟨g.pendingNoteOff, x⟩) from by
        unfold noteGateStep; rw [if_neg hc]]
      simp only [List.getD_cons_succ]
      rw [noteGateRun_firing ⟨g.pendingNoteOff, x⟩ xs i hlen]
      constructor
      · intro ⟨h1, h2, h3⟩
        refine ⟨h1, by rw [prevProd_shift g g.pendingNoteOff x xs i]; exact h2, ?_⟩
        · intro j hj
          cases j with
          | zero =>
            by_contra hneg
            exact hc ⟨h1, not_le.mp hneg⟩
          | succ j =>
            rw [prevProd_shift g g.pendingNoteOff x xs j]
            exact h3 j (Nat.lt_of_succ_lt_succ hj)
      · intro ⟨h1, h2, h3⟩
        refine ⟨h1, ?_, ?_⟩
        · rw [← prevProd_shift g g.pendingNoteOff x xs i]
          exact h2
        · intro j hj
          rw [← prevProd_shift g g.pendingNoteOff x xs j]
          exact h3 (j + 1) (Nat.succ_lt_succ hj)

theorem noteGateRunState_pending (g : NoteGate) :
    ∀ samples : List ℚ,
      ((noteGateRunState g samples).pendingNoteOff = true ↔
        g.pendingNoteOff = true ∧ ∀ j, j < samples.length → 0 ≤ prevProd g samples j)
  | [] => by
    constructor
    · intro h
      exact ⟨h, fun j hj => absurd hj (Nat.not_lt_zero j)⟩
    · intro h
      exact h.1
  | x :: xs => by
    rw [noteGateRunState]
    by_cases hc : g.pendingNoteOff = true ∧ g.lastSample * x < 0
    · rw [show noteGateStep g x = (true, ⟨false, x⟩) from by
        unfold noteGateStep; rw [if_pos hc]]
      rw [noteGateRunState_pending ⟨false, x⟩ xs]
      constructor
      · intro ⟨h1, _⟩
        exact Bool.noConfusion h1
      · intro ⟨_, hall⟩
        have h0 : (0:ℚ) ≤ g.lastSample * x := hall 0 (Nat.succ_pos xs.length)
        exact absurd hc.2 (not_lt.mpr h0)
    · rw [show noteGateStep g x = (false, ⟨g.pendingNoteOff, x⟩) from by
        unfold noteGateStep; rw [if_neg hc]]
      rw [noteGateRunState_pending ⟨g.pendingNoteOff, x⟩ xs]
      constructor
      · intro ⟨h1, h2⟩
        refine ⟨h1, ?_⟩
        intro j hj
        cases j with
        | zero =>
          by_contra hneg
          exact hc ⟨h1, not_le.mp hneg⟩
        | succ j =>
          rw [prevProd_shift g g.pendingNoteOff x xs j]
          exact h2 j (Nat.lt_of_succ_lt_succ hj)
      · intro ⟨h1, h2⟩
        refine ⟨h1, ?_⟩
        intro j hj
        rw [← prevProd_shift g g.pendingNoteOff x xs j]
        exact h2 (j + 1) (Nat.succ_lt_succ hj)

end Synth

namespace Synth

/-- C5: over any sequence of summed unison samples, the deferred note-off is
forwarded at a sample exactly when the note-off is pending and the product of
the previous and current summed samples is negative with no earlier sign
change (so it never fires where the product is not negative, it fires exactly
once per pending note-off at the first sign change), and the pending flag
survives the block precisely when no sign change occurred. -/
theorem C5_zero_crossing_noteoff (g0 : NoteGate) (samples : List ℚ) :
    (∀ i, i < samples.length →
      ((noteGateRun g0 samples).getD i false = true ↔
        g0.pendingNoteOff = true ∧ prevProd g0 samples i < 0 ∧
        ∀ j, j < i → 0 ≤ prevProd g0 samples j)) ∧
    (noteGateRun g0 samples).count true ≤ 1 ∧
    ((noteGateRunState g0 samples).pendingNoteOff = true ↔
      g0.pendingNoteOff = true ∧
      ∀ j, j < samples.length → 0 ≤ prevProd g0 samples j) :=
  ⟨noteGateRun_firing g0 samples, noteGateRun_count_le_one g0 samples,
   noteGateRunState_pending g0 samples⟩

theorem C5_witness :
    (noteGateRun ⟨true, 1⟩ [1/2, -1/2, 1/2]).getD 1 false = true ∧
    (noteGateRun ⟨true, 1⟩ [1/2, -1/2, 1/2]).getD 0 false ≠ true := by
  have h := C5_zero_crossing_noteoff ⟨true, 1⟩ [1/2, -1/2, 1/2]
  constructor
  · refine (h.1 1 (by norm_num)).mpr ⟨rfl, ?_, ?_⟩
    · show (1:ℚ)/2 * (-1/2) < 0
      norm_num
    · intro j hj
      have hj0 : j = 0 := Nat.lt_one_iff.mp hj
      subst hj0
      show (0:ℚ) ≤ 1 * (1/2)
      norm_num
  · intro hf
    have h2 := (h.1 0 (by norm_num)).mp hf
    have : (0:ℚ) ≤ 1 * (1/2) := by norm_num
    exact absurd h2.2.1 (not_lt.mpr this)

end Synth

namespace Synth

open RouterWorld

/-- The flat APVTS parameter snapshot, at the granularity the routing rebuild
needs: per registered knob (target id) the raw `_MOD_SOURCE` and `_MOD_INDEX`
values, plus the remaining parameter values as one opaque table. -/
structure ParamTree where
  modSource : Nat → Int
  modIndex : Nat → Int
  values : Nat → ℚ

/-- `static_cast<ModulationMode>` of a raw `_MOD_SOURCE` choice value
(0..4 per the registered AudioParameterChoice). -/
def modeOfInt (i : Int) : ModulationMode :=
  if i = 0 then .none
  else if i = 1 then .manual
  else if i = 2 then .midi
  else if i = 3 then .envelope
  else if i = 4 then .lfo
  else .none

/-- Processor state relevant to preset loading: the parameter tree, the
modulation router (with its targets), and the registered knob list. -/
structure SynthWorld where
  tree : ParamTree
  router : RouterWorld
  knobs : List Nat

/-- The loop of `DigitalSynthesizerAudioProcessor::restoreModulationRouting`
(PluginProcessor.cpp 543-572): for every registered knob read its
`_MOD_SOURCE`/`_MOD_INDEX` and connect it to the matching source; other
modes are skipped. -/
def restoreLoop (tree : ParamTree) : List Nat → RouterWorld → RouterWorld
  | [], r => r
  | k :: ks, r =>
    let r1 :=
      match modeOfInt (tree.modSource k) with
      | .envelope => RouterWorld.connect ⟨.envelope, tree.modIndex k⟩ k r
      | .lfo => RouterWorld.connect ⟨.lfo, tree.modIndex k⟩ k r
      | _ => r
    restoreLoop tree ks r1

/-- `restoreModulationRouting` over the synth world. -/
def restoreModulationRouting (w : SynthWorld) : SynthWorld :=
  { w with router := restoreLoop w.tree w.knobs w.router }

/-- The preset input at the `juce::XmlDocument::parse` /
`juce::ValueTree::fromXml` interface boundary: either unparseable XML, or a
tree carrying its `isValid()` flag. -/
inductive PresetInput
  | malformed
  | tree (valid : Bool) (t : ParamTree)

/-- `PresetManager::loadPreset`: on a parse failure or an invalid tree,
return false with the world untouched; otherwise replace the parameter
state, disconnect all live modulation edges, rebuild the routing from the
stored `_MOD_SOURCE`/`_MOD_INDEX` values, and return true. -/
def loadPreset (input : PresetInput) (w : SynthWorld) : Bool × SynthWorld :=
  match input with
  | .malformed => (false, w)
  | .tree valid t =>
    if valid = true then
      let w1 : SynthWorld := { w with tree := t }
      let w2 : SynthWorld := { w1 with router := RouterWorld.disconnectAll w1.router }
      (true, restoreModulationRouting w2)
    else (false, w)

theorem restoreLoop_t2s_not_mem {tree : ParamTree} {k : Nat} :
    ∀ {ks : List Nat} (r : RouterWorld), k ∉ ks →
      (restoreLoop tree ks r).t2s k = r.t2s k
  | [], _, _ => rfl
  | k2 :: ks, r, h => by
    have h1 : k ∉ ks := fun hm => h (List.mem_cons_of_mem _ hm)
    have h2 : k ≠ k2 := fun he => h (he ▸ List.mem_cons_self ..)
    rw [restoreLoop]
    cases modeOfInt (tree.modSource k2) with
    | envelope =>
      rw [restoreLoop_t2s_not_mem _ h1, connect_t2s, Function.update_noteq h2,
        disconnect_t2s_ne h2]
    | lfo =>
      rw [restoreLoop_t2s_not_mem _ h1, connect_t2s, Function.update_noteq h2,
        disconnect_t2s_ne h2]
    | none => exact restoreLoop_t2s_not_mem _ h1
    | manual => exact restoreLoop_t2s_not_mem _ h1
    | midi => exact restoreLoop_t2s_not_mem _ h1

theorem restoreLoop_t2s_mem {tree : ParamTree} {k : Nat} :
    ∀ {ks : List Nat} (r : RouterWorld), ks.Nodup → k ∈ ks →
      r.t2s k = Option.none →
      (restoreLoop tree ks r).t2s k
        = (match modeOfInt (tree.modSource k) with
           | .envelope => some ⟨.envelope, tree.modIndex k⟩
           | .lfo => some ⟨.lfo, tree.modIndex k⟩
           | _ => Option.none)
  | [], _, _, hm, _ => absurd hm (List.not_mem_nil k)
  | k2 :: ks, r, hnd, hm, hnone => by
    by_cases he : k = k2
    · subst he
      have hnotin : k ∉ ks := (List.nodup_cons.mp hnd).1
      rw [restoreLoop]
      cases hmode : modeOfInt (tree.modSource k) with
      | envelope => rw [restoreLoop_t2s_not_mem _ hnotin, connect_t2s_self]
      | lfo => rw [restoreLoop_t2s_not_mem _ hnotin, connect_t2s_self]
      | none => rw [restoreLoop_t2s_not_mem _ hnotin]; exact hnone
      | manual => rw [restoreLoop_t2s_not_mem _ hnotin]; exact hnone
      | midi => rw [restoreLoop_t2s_not_mem _ hnotin]; exact hnone
    · have hmem : k ∈ ks := by
        rcases List.mem_cons.mp hm with h | h
        · exact absurd h he
        · exact h
      rw [restoreLoop]
      cases modeOfInt (tree.modSource k2) with
      | envelope =>
        refine restoreLoop_t2s_mem _ (List.nodup_cons.mp hnd).2 hmem ?_
        rw [connect_t2s, Function.update_noteq he, disconnect_t2s_ne he]
        exact hnone
      | lfo =>
        refine restoreLoop_t2s_mem _ (List.nodup_cons.mp hnd).2 hmem ?_
        rw [connect_t2s, Function.update_noteq he, disconnect_t2s_ne he]
        exact hnone
      | none => exact restoreLoop_t2s_mem _ (List.nodup_cons.mp hnd).2 hmem hnone
      | manual => exact restoreLoop_t2s_mem _ (List.nodup_cons.mp hnd).2 hmem hnone
      | midi => exact restoreLoop_t2s_mem _ (List.nodup_cons.mp hnd).2 hmem hnone

/-- C8: `loadPreset` returns false and leaves the world untouched for
unparseable XML or an invalid tree; on a valid tree it returns true with
exactly the pipeline parameter-replace → disconnect-all → routing-rebuild
applied, and afterwards each registered knob is connected exactly as its
stored `_MOD_SOURCE`/`_MOD_INDEX` dictate. -/
theorem C8_loadPreset_atomic (w : SynthWorld) :
    loadPreset .malformed w = (false, w) ∧
    (∀ t : ParamTree, loadPreset (.tree false t) w = (false, w)) ∧
    (∀ t : ParamTree, loadPreset (.tree true t) w
        = (true, restoreModulationRouting
            { w with tree := t, router := RouterWorld.disconnectAll w.router })) ∧
    (∀ t : ParamTree, w.knobs.Nodup → ∀ k ∈ w.knobs,
        (loadPreset (.tree true t) w).2.router.t2s k
          = (match modeOfInt (t.modSource k) with
             | .envelope => some ⟨.envelope, t.modIndex k⟩
             | .lfo => some ⟨.lfo, t.modIndex k⟩
             | _ => Option.none)) := by
  refine ⟨rfl, fun _ => rfl, fun _ => rfl, ?_⟩
  intro t hnd k hk
  show (restoreLoop t w.knobs (RouterWorld.disconnectAll w.router)).t2s k = _
  exact restoreLoop_t2s_mem _ hnd hk rfl

/-- A two-knob world for the C8 witness: knob 2 stores Envelope/index 1,
knob 5 stores None. -/
def wC8 : SynthWorld :=
  ⟨⟨fun _ => 0, fun _ => 0, fun _ => 0⟩, w0, [2, 5]⟩

/-- The preset tree loaded in the C8 witness. -/
def tC8 : ParamTree :=
  ⟨fun k => if k = 2 then 3 else 0, fun k => if k = 2 then 1 else 0, fun _ => 1/2⟩

theorem C8_witness :
    loadPreset .malformed wC8 = (false, wC8) ∧
    (loadPreset (.tree true tC8) wC8).2.router.t2s 2
      = some ⟨.envelope, 1⟩ ∧
    (loadPreset (.tree true tC8) wC8).2.router.t2s 5 = Option.none := by
  have h := C8_loadPreset_atomic wC8
  refine ⟨h.1, ?_, ?_⟩
  · have h2 := h.2.2.2 tC8 (by decide) 2 (by decide)
    rw [h2]
    rfl
  · have h5 := h.2.2.2 tC8 (by decide) 5 (by decide)
    rw [h5]
    rfl

end Synth

namespace Synth

/-- `LFO::Type` (Sine, Triangle, Square, Steps). -/
inductive LFOType
  | sine
  | triangle
  | square
  | steps
deriving DecidableEq, Repr

/-- `LFO::Mode` (Free, Retrigger). -/
inductive LFOMode
  | free
  | retrigger
deriving DecidableEq, Repr

/-- The `LFO` instance state (LFO.h fields used by the rendering path). -/
structure LFOState where
  frequencyHz : ℚ
  ty : LFOType
  mode : LFOMode
  shape : ℚ
  numSteps : Int
  stepValues : List ℚ
  bypassed : Bool
  isTriggered : Bool
  needsRetrigger : Bool
  phase : ℚ
  modulationBuffer : List ℚ
  bufferIndex : ℕ
  modulationActive : Bool

/-- `static_cast<int>` of a non-negative float: truncation toward zero. -/
def truncToInt (q : ℚ) : Int := Int.tdiv q.num (q.den : Int)

/-- `juce::jlimit` on ints. -/
def jlimitInt (lo hi v : Int) : Int :=
  if v < lo then lo else if hi < v then hi else v

/-- `LFO::getValueAtPhase` (the shape evaluation).  The transcendental
`std::sin` and the float π constant of the Sine case are abstracted as the
parameters `qsin` and `piQ` (floating-point sine is not representable in the
rational model); the dead `warpPhase` call in the source has no effect on the
result and is omitted. -/
def getValueAtPhase (piQ : ℚ) (qsin : ℚ → ℚ) (l : LFOState) (phase : ℚ) : ℚ :=
  if l.ty = .steps then
    let stepIndex := jlimitInt 0 (l.numSteps - 1) (truncToInt (phase * l.numSteps))
    let rampValue := (stepIndex : ℚ) / ((l.numSteps : ℚ) - 1)
    let randomValue :=
      if stepIndex < (l.stepValues.length : Int) then l.stepValues.getD stepIndex.toNat 0
      else 0
    jmap01 l.shape rampValue randomValue
  else
    match l.ty with
    | .sine =>
      let duty := jlimit (1/100) (99/100) l.shape
      let angle :=
        if phase < duty then jmap01 (phase / duty) 0 piQ
        else jmap01 ((phase - duty) / (1 - duty)) piQ (2 * piQ)
      1/2 + 1/2 * qsin angle
    | .triangle =>
      let skew := jlimit (1/1000) (999/1000) l.shape
      if phase < skew then phase / skew else (1 - phase) / (1 - skew)
    | .square => if phase < l.shape then 1 else 0
    | _ => 1/2

/-- The fill loop of `LFO::advance`: sample the shape at the current phase,
then step the phase by `frequency/sampleRate`, wrapping at 1.  Returns the
filled buffer and the final phase. -/
def advanceFill (piQ : ℚ) (qsin : ℚ → ℚ) (l : LFOState) (phaseDelta : ℚ) :
    ℕ → ℚ → List ℚ × ℚ
  | 0, ph => ([], ph)
  | n + 1, ph =>
    let v := getValueAtPhase piQ qsin l ph
    let ph1 := ph + phaseDelta
    let ph2 := if 1 ≤ ph1 then ph1 - 1 else ph1
    let r := advanceFill piQ qsin l phaseDelta n ph2
    (v :: r.1, r.2)

/-- `LFO::advance`: honour a pending retrigger, then regenerate the cached
modulation buffer for the block and rewind the read index. -/
def lfoAdvance (piQ : ℚ) (qsin : ℚ → ℚ) (samplesPerBlock : ℕ) (sampleRate : ℚ)
    (l : LFOState) : LFOState :=
  let l1 := if l.needsRetrigger = true then { l with phase := 0, needsRetrigger := false }
            else l
  let r := advanceFill piQ qsin l1 (l1.frequencyHz / sampleRate) samplesPerBlock l1.phase
  { l1 with modulationBuffer := r.1, bufferIndex := 0, phase := r.2 }

/-- `LFO::isModulationActive`. -/
def isModulationActive (l : LFOState) : Bool := l.modulationActive

/-- `LFO::getNextValue` (part_003 lines 206-218): 0 when not
modulation-active, the 0.5 fallback when the cached buffer is empty,
otherwise the sample at the read index, advancing the index cyclically. -/
def lfoGetNextValue (l : LFOState) : ℚ × LFOState :=
  if isModulationActive l = false then (0, l)
  else if l.modulationBuffer = [] then (1/2, l)
  else
    (l.modulationBuffer.getD l.bufferIndex 0,
     { l with bufferIndex := (l.bufferIndex + 1) % l.modulationBuffer.length })

/-- State after `k` repeated `getNextValue` calls. -/
def lfoConsumeState : ℕ → LFOState → LFOState
  | 0, l => l
  | k + 1, l => lfoConsumeState k (lfoGetNextValue l).2

/-- Value returned by the `(k+1)`-th `getNextValue` call (0-indexed). -/
def lfoNthValue (k : ℕ) (l : LFOState) : ℚ :=
  (lfoGetNextValue (lfoConsumeState k l)).1

end Synth

namespace Synth

/-- C10: `getNextValue` returns 0 without touching the buffer or index when
the LFO is not modulation-active; returns the fixed 0.5 fallback (again
without touching state) when it is active but the cached buffer is empty;
and otherwise returns the sample at the current read index and advances the
index cyclically modulo the buffer length. -/
theorem C10_getNextValue_fallbacks (l : LFOState) :
    (l.modulationActive = false → lfoGetNextValue l = (0, l)) ∧
    (l.modulationActive = true → l.modulationBuffer = [] →
      lfoGetNextValue l = (1/2, l)) ∧
    (l.modulationActive = true →
      ∀ h : l.bufferIndex < l.modulationBuffer.length,
        (lfoGetNextValue l).1 = l.modulationBuffer.get ⟨l.bufferIndex, h⟩ ∧
        (lfoGetNextValue l).2
          = { l with bufferIndex := (l.bufferIndex + 1) % l.modulationBuffer.length }) := by
  refine ⟨?_, ?_, ?_⟩
  · intro h
    unfold lfoGetNextValue isModulationActive
    rw [if_pos h]
  · intro hA hB
    unfold lfoGetNextValue isModulationActive
    rw [if_neg (by rw [hA]; exact fun hc => Bool.noConfusion hc), if_pos hB]
  · intro hA h
    have hne : l.modulationBuffer ≠ [] := by
      intro hB
      rw [hB] at h
      exact absurd h (Nat.not_lt_zero _)
    unfold lfoGetNextValue isModulationActive
    rw [if_neg (by rw [hA]; exact fun hc => Bool.noConfusion hc), if_neg hne]
    exact ⟨List.getD_eq_getElem l.modulationBuffer 0 h, rfl⟩

/-- A small active LFO state with a two-sample cached buffer, read index 1. -/
def lC10 : LFOState :=
  ⟨2, .square, .free, 1/2, 4, [], false, true, false, 0, [1/4, 3/4], 1, true⟩

/-- The same LFO marked not modulation-active. -/
def lC10off : LFOState :=
  ⟨2, .square, .free, 1/2, 4, [], false, true, false, 0, [1/4, 3/4], 1, false⟩

/-- The same LFO active but with an empty cached buffer. -/
def lC10empty : LFOState :=
  ⟨2, .square, .free, 1/2, 4, [], false, true, false, 0, [], 0, true⟩

theorem C10_witness :
    lfoGetNextValue lC10off = (0, lC10off) ∧
    lfoGetNextValue lC10empty = (1/2, lC10empty) ∧
    (lfoGetNextValue lC10).1 = lC10.modulationBuffer.get ⟨1, by decide⟩ ∧
    (lfoGetNextValue lC10).2
      = { lC10 with bufferIndex := (lC10.bufferIndex + 1) % lC10.modulationBuffer.length } := by
  have h1 := (C10_getNextValue_fallbacks lC10off).1 rfl
  have h2 := (C10_getNextValue_fallbacks lC10empty).2.1 rfl rfl
  have h3 := (C10_getNextValue_fallbacks lC10).2.2 rfl (by decide)
  exact ⟨h1, h2, h3.1, h3.2⟩

end Synth


namespace Synth

theorem advanceFill_length (piQ : ℚ) (qsin : ℚ → ℚ) (l : LFOState) (d : ℚ) :
    ∀ (n : ℕ) (ph : ℚ), (advanceFill piQ qsin l d n ph).1.length = n
  | 0, _ => rfl
  | n + 1, ph => by
    rw [advanceFill]
    show (getValueAtPhase piQ qsin l ph :: _).length = n + 1
    rw [List.length_cons, advanceFill_length piQ qsin l d n]

theorem advanceFill_getD (piQ : ℚ) (qsin : ℚ → ℚ) (l : LFOState) (d : ℚ) :
    ∀ (n : ℕ) (ph : ℚ), (∀ i : ℕ, i < n → ph + i * d < 1) →
      ∀ j, j < n →
        (advanceFill piQ qsin l d n ph).1.getD j 0
          = getValueAtPhase piQ qsin l (ph + j * d)
  | 0, _, _, j, hj => absurd hj (Nat.not_lt_zero j)
  | n + 1, ph, hcond, 0, _ => by
    rw [advanceFill]
    show getValueAtPhase piQ qsin l ph = getValueAtPhase piQ qsin l (ph + 0 * d)
    norm_num
  | n + 1, ph, hcond, j + 1, hj => by
    have hjn : j < n := Nat.lt_of_succ_lt_succ hj
    have hn1 : 0 < n := lt_of_le_of_lt (Nat.zero_le j) hjn
    have hwrap : ¬(1 ≤ ph + d) := by
      rw [not_le]
      have h1 := hcond 1 (Nat.succ_lt_succ hn1)
      push_cast at h1
      linarith
    rw [advanceFill]
    dsimp only
    rw [if_neg hwrap, List.getD_cons_succ]
    rw [advanceFill_getD piQ qsin l d n (ph + d)
      (fun i hi => by
        have h2 := hcond (i + 1) (Nat.succ_lt_succ hi)
        push_cast at h2 ⊢
        linarith) j hjn]
    congr 1
    push_cast
    ring

theorem lfoGetNextValue_active {l : LFOState} (hA : l.modulationActive = true)
    (hne : l.modulationBuffer ≠ []) :
    lfoGetNextValue l
      = (l.modulationBuffer.getD l.bufferIndex 0,
         { l with bufferIndex := (l.bufferIndex + 1) % l.modulationBuffer.length }) := by
  unfold lfoGetNextValue isModulationActive
  rw [if_neg (by rw [hA]; exact fun hc => Bool.noConfusion hc), if_neg hne]

theorem lfoConsume_spec :
    ∀ (k : ℕ) (l : LFOState), l.modulationActive = true →
      l.bufferIndex < l.modulationBuffer.length →
      (lfoConsumeState k l).modulationBuffer = l.modulationBuffer ∧
      (lfoConsumeState k l).modulationActive = true ∧
      (lfoConsumeState k l).bufferIndex = (l.bufferIndex + k) % l.modulationBuffer.length
  | 0, l, hA, hlt => by
    refine ⟨rfl, hA, ?_⟩
    rw [Nat.add_zero]
    exact (Nat.mod_eq_of_lt hlt).symm
  | k + 1, l, hA, hlt => by
    have hpos : 0 < l.modulationBuffer.length := lt_of_le_of_lt (Nat.zero_le _) hlt
    have hne : l.modulationBuffer ≠ [] := by
      intro hB
      rw [hB] at hpos
      exact absurd hpos (Nat.lt_irrefl 0)
    have hstep : (lfoGetNextValue l).2
        = { l with bufferIndex := (l.bufferIndex + 1) % l.modulationBuffer.length } := by
      rw [lfoGetNextValue_active hA hne]
    have hconv : lfoConsumeState (k + 1) l
        = lfoConsumeState k
            { l with bufferIndex := (l.bufferIndex + 1) % l.modulationBuffer.length } := by
      show lfoConsumeState k (lfoGetNextValue l).2 = _
      rw [hstep]
    have hlt2 : (l.bufferIndex + 1) % l.modulationBuffer.length
        < l.modulationBuffer.length := Nat.mod_lt _ hpos
    obtain ⟨hb, ha2, hi⟩ := lfoConsume_spec k
      { l with bufferIndex := (l.bufferIndex + 1) % l.modulationBuffer.length } hA hlt2
    refine ⟨?_, ?_, ?_⟩
    · rw [hconv]
      exact hb
    · rw [hconv]
      exact ha2
    · rw [hconv, hi]
      show ((l.bufferIndex + 1) % l.modulationBuffer.length + k) % l.modulationBuffer.length
        = (l.bufferIndex + (k + 1)) % l.modulationBuffer.length
      rw [Nat.mod_add_mod]
      congr 1
      omega

/-- The C9 LFO configuration: Square, duty 0.5, 2 Hz, phase 0,
modulation-active, empty cache. -/
def lfoC9 : LFOState :=
  ⟨2, .square, .free, 1/2, 4, [], false, true, false, 0, [], 0, true⟩

/-- The C9 LFO after `advance(24000, 48000)`. -/
def advC9 (piQ : ℚ) (qsin : ℚ → ℚ) : LFOState :=
  lfoAdvance piQ qsin 24000 48000 lfoC9

theorem advC9_buffer (piQ : ℚ) (qsin : ℚ → ℚ) :
    (advC9 piQ qsin).modulationBuffer
      = (advanceFill piQ qsin lfoC9 (2 / 48000) 24000 0).1 := rfl

theorem advC9_buffer_getD (piQ : ℚ) (qsin : ℚ → ℚ) (j : ℕ) (hj : j < 24000) :
    (advC9 piQ qsin).modulationBuffer.getD j 0 = if j < 12000 then (1:ℚ) else 0 := by
  have hcond : ∀ i : ℕ, i < 24000 → (0:ℚ) + i * (2 / 48000) < 1 := by
    intro i hi
    have hc : (i:ℚ) < 24000 := by exact_mod_cast hi
    nlinarith
  rw [advC9_buffer, advanceFill_getD piQ qsin lfoC9 (2/48000) 24000 0 hcond j hj]
  unfold getValueAtPhase
  rw [if_neg (by decide : ¬lfoC9.ty = LFOType.steps)]
  show (if (0:ℚ) + j * (2/48000) < lfoC9.shape then (1:ℚ) else 0) = _
  have hiff : ((0:ℚ) + j * (2/48000) < lfoC9.shape) ↔ (j < 12000) := by
    show ((0:ℚ) + j * (2/48000) < 1/2) ↔ (j < 12000)
    rw [← Nat.cast_lt (α := ℚ)]
    push_cast
    constructor
    · intro h
      nlinarith
    · intro h
      nlinarith
  rw [if_congr hiff rfl rfl]

/-- C9: after `advance(24000, 48000)` the Square/duty-0.5/2 Hz LFO's cached
buffer is exactly 12000 samples of 1.0 followed by 12000 samples of 0.0, and
the first 24000 `getNextValue` calls replay that sequence in order. -/
theorem C9_square_block (piQ : ℚ) (qsin : ℚ → ℚ) :
    (advC9 piQ qsin).modulationBuffer
      = (List.range 24000).map (fun i => if i < 12000 then (1:ℚ) else 0) ∧
    ∀ k, k < 24000 →
      lfoNthValue k (advC9 piQ qsin) = if k < 12000 then (1:ℚ) else 0 := by
  have hlen : (advC9 piQ qsin).modulationBuffer.length = 24000 := by
    rw [advC9_buffer, advanceFill_length]
  constructor
  · apply List.ext_getElem
    · rw [hlen, List.length_map, List.length_range]
    · intro i h1 h2
      have h24 : i < 24000 := by
        rw [hlen] at h1
        exact h1
      have hg := advC9_buffer_getD piQ qsin i h24
      rw [List.getD_eq_getElem _ 0 h1] at hg
      rw [hg]
      rw [List.getElem_map, List.getElem_range]
  · intro k hk
    have hA : (advC9 piQ qsin).modulationActive = true := rfl
    have hidx : (advC9 piQ qsin).bufferIndex = 0 := rfl
    have hlt : (advC9 piQ qsin).bufferIndex < (advC9 piQ qsin).modulationBuffer.length := by
      rw [hidx, hlen]
      norm_num
    obtain ⟨hb, ha2, hi⟩ := lfoConsume_spec k (advC9 piQ qsin) hA hlt
    have hne2 : (lfoConsumeState k (advC9 piQ qsin)).modulationBuffer ≠ [] := by
      rw [hb]
      intro hB
      rw [hB] at hlen
      exact absurd hlen (by norm_num)
    unfold lfoNthValue
    rw [lfoGetNextValue_active ha2 hne2]
    show (lfoConsumeState k (advC9 piQ qsin)).modulationBuffer.getD
      (lfoConsumeState k (advC9 piQ qsin)).bufferIndex 0 = _
    rw [hb, hi, hidx, hlen]
    rw [Nat.zero_add, Nat.mod_eq_of_lt hk]
    exact advC9_buffer_getD piQ qsin k hk

theorem C9_witness :
    lfoNthValue 0 (advC9 0 (fun _ => 0)) = 1 ∧
    lfoNthValue 11999 (advC9 0 (fun _ => 0)) = 1 ∧
    lfoNthValue 12000 (advC9 0 (fun _ => 0)) = 0 ∧
    lfoNthValue 23999 (advC9 0 (fun _ => 0)) = 0 := by
  have h := (C9_square_block 0 (fun _ => 0)).2
  refine ⟨?_, ?_, ?_, ?_⟩
  · rw [h 0 (by norm_num)]
    rfl
  · rw [h 11999 (by norm_num)]
    rfl
  · rw [h 12000 (by norm_num)]
    rfl
  · rw [h 23999 (by norm_num)]
    rfl

end Synth
